import Mathlib

/-!
# sync-tool: rsync command builder and itemized-output parser

A shallow embedding of `internal/config/config.go` (profile option and exclude
resolution), `internal/sync/sync.go` (argument-vector construction, the parser
of rsync's itemized output, the copy and delete phases) and the function Sync
of `internal/app/app.go`, with theorems about them.

Go strings are modelled as lists of Unicode characters (`GoString`), that is,
as valid UTF-8 text; Go's `len` on a string is the UTF-8 byte length (`len`
below), not the number of characters.
-/

namespace SyncTool

/-! ## Go strings and the `strings` functions the program calls -/

/-- A Go string holding valid UTF-8 text, as the list of its runes. -/
abbrev GoString := List Char

/-- Go `unicode.IsSpace`: the White_Space code points. -/
def isSpace (c : Char) : Bool :=
  (0x09 ≤ c.toNat && c.toNat ≤ 0x0D) || c.toNat == 0x20 || c.toNat == 0x85 ||
  c.toNat == 0xA0 || c.toNat == 0x1680 || (0x2000 ≤ c.toNat && c.toNat ≤ 0x200A) ||
  c.toNat == 0x2028 || c.toNat == 0x2029 || c.toNat == 0x202F || c.toNat == 0x205F ||
  c.toNat == 0x3000

/-- Go `utf8.RuneLen`: the number of bytes of a rune in UTF-8. -/
def runeLen (c : Char) : Nat :=
  if c.toNat < 0x80 then 1 else if c.toNat < 0x800 then 2 else if c.toNat < 0x10000 then 3 else 4

/-- Go `len(s)` on a string: its length in bytes. -/
def len (s : GoString) : Nat := (s.map runeLen).sum

/-- Go `strings.TrimSpace`: drop leading, then trailing, white space. -/
def trimSpace (s : GoString) : GoString :=
  ((s.dropWhile isSpace).reverse.dropWhile isSpace).reverse

/-- Go `strings.HasPrefix`. -/
def hasPrefix (s p : GoString) : Bool := p.isPrefixOf s

/-- Go `strings.Contains`: `sub` occurs in `s` at some position. -/
def contains : GoString → GoString → Bool
  | [], sub => hasPrefix [] sub
  | c :: cs, sub => hasPrefix (c :: cs) sub || contains cs sub

/-- The scan loop of Go `strings.Fields`: `cur` is the token being read (empty
when no token has started, as a started token has at least one rune). -/
def fieldsAux : GoString → GoString → List GoString
  | [], cur => if cur = [] then [] else [cur]
  | c :: cs, cur =>
    if isSpace c then
      if cur = [] then fieldsAux cs [] else cur :: fieldsAux cs []
    else fieldsAux cs (cur ++ [c])

/-- Go `strings.Fields`: the maximal runs of non-space runes, in order. -/
def fields (s : GoString) : List GoString := fieldsAux s []

/-- Go `strings.Split(s, sep)` for a one-rune separator: the pieces between
occurrences of `sep`, one more than the number of occurrences. -/
def split (sep : Char) : GoString → List GoString
  | [] => [[]]
  | c :: cs =>
    if c = sep then [] :: split sep cs
    else match split sep cs with
      | h :: t => (c :: h) :: t
      | [] => [[c]]

/-- Go `fmt.Sprintf("%d", n)` for an `int`. -/
def fmtInt (n : Int) : GoString := (toString n).toList

/-! ## internal/config/config.go -/

/-- ServerConfig of config.go. -/
structure ServerConfig where
  Host : GoString
  User : GoString
  Port : Int
  KeyPath : GoString
deriving DecidableEq

/-- SyncConfig of config.go. -/
structure SyncConfig where
  Options : List GoString
  DefaultExcludes : List GoString
deriving DecidableEq

/-- SyncProfile of config.go. -/
structure SyncProfile where
  Name : GoString
  Description : GoString
  ServerPath : GoString
  LocalPath : GoString
  Options : List GoString
  Includes : List GoString
  Excludes : List GoString
deriving DecidableEq

/-- The part of Config of config.go that the sync engine reads. -/
structure Config where
  Server : ServerConfig
  Sync : SyncConfig
deriving DecidableEq

/-- SyncProfile.GetSyncOptions: the profile's options when it has any, else
the base options. -/
def SyncProfile.GetSyncOptions (p : SyncProfile) (baseOptions : List GoString) : List GoString :=
  if p.Options.length > 0 then p.Options else baseOptions

/-- SyncProfile.GetExcludes: a fresh slice receiving the default excludes and
then the profile's excludes. -/
def SyncProfile.GetExcludes (p : SyncProfile) (defaultExcludes : List GoString) : List GoString :=
  let excludes : List GoString := []
  let excludes := excludes ++ defaultExcludes
  let excludes := excludes ++ p.Excludes
  excludes

/-! ## internal/sync/sync.go -/

/-- ChangeType of sync.go is a string type. -/
abbrev ChangeType := GoString

def ChangeTypeNew : ChangeType := "new".toList
def ChangeTypeModified : ChangeType := "modified".toList
def ChangeTypeDeleted : ChangeType := "deleted".toList
def ChangeTypeUnchanged : ChangeType := "unchanged".toList

/-- FileChange of sync.go (field `Type` is spelled `Type_`). -/
structure FileChange where
  Type_ : ChangeType
  Path : GoString
  Size : GoString
  Checksum : GoString
deriving DecidableEq

/-- SyncResult of sync.go; `Error` is `none` for Go's nil error. -/
structure SyncResult where
  Changes : List FileChange
  Deletions : List GoString
  Error : Option GoString
  HasChanges : Bool
  HasDeletions : Bool
deriving DecidableEq

/-- Go `exec.Cmd`: the program name and `Args`, which starts with the name. -/
structure Cmd where
  Path : GoString
  Args : List GoString
deriving DecidableEq

/-- Go `exec.Command(name, arg...)`. -/
def execCommand (name : GoString) (arg : List GoString) : Cmd :=
  { Path := name, Args := name :: arg }

/-- The remote-shell string built in both command builders. -/
def sshArgs (cfg : Config) : GoString :=
  let sshArgs : GoString := "ssh -p ".toList ++ fmtInt cfg.Server.Port
  if cfg.Server.KeyPath ≠ [] then sshArgs ++ (" -i ".toList ++ cfg.Server.KeyPath) else sshArgs

/-- SyncEngine.buildRsyncCommand: the arguments are appended in source order. -/
def buildRsyncCommand (cfg : Config) (profile : SyncProfile) (dryRun : Bool) : Cmd :=
  let args : List GoString := []
  let options := profile.GetSyncOptions cfg.Sync.Options
  let args := args ++ options
  let args := if dryRun then args ++ ["--dry-run".toList] else args
  let args := args ++ ["--no-perms".toList, "--no-owner".toList, "--no-group".toList]
  let args := args ++ ["--partial".toList, "--partial-dir=.rsync-partial".toList]
  let args := args ++ ["--timeout=300".toList]
  let args := args ++ ["--delete".toList]
  let args := args ++ ["-e".toList, sshArgs cfg]
  let excludes := profile.GetExcludes cfg.Sync.DefaultExcludes
  let args := excludes.foldl (fun args excl => args ++ ["--exclude".toList, excl]) args
  let args := profile.Includes.foldl (fun args incl => args ++ ["--include".toList, incl]) args
  let source := cfg.Server.User ++ "@".toList ++ cfg.Server.Host ++ ":".toList ++
    profile.ServerPath ++ "/".toList
  let target := profile.LocalPath ++ "/".toList
  let args := args ++ [source, target]
  execCommand "rsync".toList args

/-- SyncEngine.buildRsyncCommandWithFileList. -/
def buildRsyncCommandWithFileList (cfg : Config) (profile : SyncProfile)
    (fileListPath : GoString) : Cmd :=
  let args : List GoString := []
  let options := profile.GetSyncOptions cfg.Sync.Options
  let args := args ++ options
  let args := args ++ ["--files-from".toList, fileListPath]
  let args := args ++ ["--no-perms".toList, "--no-owner".toList, "--no-group".toList]
  let args := args ++ ["--partial".toList, "--partial-dir=.rsync-partial".toList]
  let args := args ++ ["--timeout=300".toList]
  let args := args ++ ["-e".toList, sshArgs cfg]
  let source := cfg.Server.User ++ "@".toList ++ cfg.Server.Host ++ ":".toList ++
    profile.ServerPath ++ "/".toList
  let target := profile.LocalPath ++ "/".toList
  let args := args ++ [source, target]
  execCommand "rsync".toList args

/-- The acceptance test on the change code (first token) in parseRsyncOutput. -/
def validChangeType (changeType : GoString) : Bool :=
  hasPrefix changeType "<".toList || hasPrefix changeType ">".toList ||
  hasPrefix changeType "c".toList || hasPrefix changeType "h".toList ||
  hasPrefix changeType "d".toList || hasPrefix changeType "s".toList

/-- The statistics-line test of parseRsyncOutput. -/
def isStatsLine (line : GoString) : Bool :=
  contains line "sent ".toList || contains line "received ".toList ||
  contains line "total size".toList || contains line "bytes/sec".toList ||
  contains line "speedup".toList || contains line "Transfer starting".toList

/-- The test that a path looks like a fragment of a statistics line. -/
def statsPath (path : GoString) : Bool :=
  contains path "bytes".toList || contains path "sec".toList ||
  contains path "sent".toList || contains path "received".toList

/-- The body of the line loop of parseRsyncOutput: `result` is the result so
far, `line0` the line as split off the output. The byte slice `line[9:]` is
taken only after the nine ASCII bytes of the marker were matched, so it drops
nine runes. -/
def parseLine (result : SyncResult) (line0 : GoString) : SyncResult :=
  let line := trimSpace line0
  if line = [] then result
  else if hasPrefix line "*deleting".toList then
    let path := trimSpace (line.drop 9)
    if path ≠ [] then { result with Deletions := result.Deletions ++ [path] } else result
  else if len line ≥ 12 then
    if isStatsLine line then result
    else
      let parts := fields line
      if parts.length ≥ 2 then
        let changeType := parts.headD []
        let path := parts.getLastD []
        if validChangeType changeType && path ≠ [] && !statsPath path then
          let change : FileChange := { Type_ := [], Path := path, Size := [], Checksum := [] }
          let change :=
            if contains changeType "+++++++".toList then { change with Type_ := ChangeTypeNew }
            else if contains changeType "csT".toList || contains changeType "..T".toList then
              { change with Type_ := ChangeTypeModified }
            else { change with Type_ := ChangeTypeModified }
          { result with Changes := result.Changes ++ [change] }
        else result
      else result
  else result

/-- SyncEngine.parseRsyncOutput. -/
def parseRsyncOutput (output : GoString) : SyncResult :=
  let result : SyncResult :=
    { Changes := [], Deletions := [], Error := none, HasChanges := false, HasDeletions := false }
  let lines := split (Char.ofNat 10) output
  let result := lines.foldl parseLine result
  let result := { result with HasChanges := decide (result.Changes.length > 0) }
  let result := { result with HasDeletions := decide (result.Deletions.length > 0) }
  result

/-- One `flag pattern` pair per pattern, in the order of the patterns: the
argument pairs the specification asks for. -/
def flagPairs (flag : GoString) : List GoString → List GoString
  | [] => []
  | pattern :: rest => flag :: pattern :: flagPairs flag rest

/-! ## The operating system, as far as the program calls it

The program reaches the file system, the rsync subprocess and standard input
through Go's `os`, `os/exec` and `bufio` packages. Their behaviour is a
parameter (`OS`), a state of type `σ` is passed along, and every call is
recorded in a trace. Console output and log lines are left out. -/

/-- What `cmd.Wait` returns: nil, an `*exec.ExitError` with its `ExitCode()`,
or another error with its message. -/
inductive WaitResult where
  | success
  | exitError (code : Int)
  | otherError (msg : GoString)
deriving DecidableEq

/-- A call the program makes to the operating system. -/
inductive Event where
  | stat (path : GoString)
  | removeAll (path : GoString)
  | createTemp
  | write (file text : GoString)
  | close (file : GoString)
  | remove (file : GoString)
  | start (cmd : Cmd)
  | wait (cmd : Cmd)
  | combinedOutput (cmd : Cmd)
  | readString
deriving DecidableEq

/-- The behaviour of the operating system on a state `σ`. An error is `some`
message, Go's nil is `none`. -/
structure OS (σ : Type) where
  /-- `os.IsNotExist` of the error of `os.Stat(path)`. -/
  statNotExist : σ → GoString → Bool
  /-- `os.RemoveAll(path)`: the state afterwards and the error. -/
  removeAll : σ → GoString → σ × Option GoString
  /-- `os.CreateTemp("", "sync-files-*.txt")`: the error, or the file's name. -/
  createTemp : σ → σ × Except GoString GoString
  /-- `fmt.Fprintln(file, text)`, by the text written; its error is dropped. -/
  write : σ → GoString → GoString → σ
  /-- `file.Close()`; its error is dropped. -/
  close : σ → GoString → σ
  /-- `os.Remove(name)`; its error is dropped. -/
  remove : σ → GoString → σ
  /-- `cmd.Start()`. -/
  start : σ → Cmd → σ × Option GoString
  /-- `cmd.Wait()`. -/
  wait : σ → Cmd → σ × WaitResult
  /-- `cmd.CombinedOutput()`: the output and the error. -/
  combinedOutput : σ → Cmd → σ × GoString × Option GoString
  /-- `bufio.NewReader(os.Stdin).ReadString(newline)`: the data read and the error. -/
  readString : σ → σ × GoString × Option GoString

/-- The state of the operating system and the calls made so far. -/
structure World (σ : Type) where
  state : σ
  trace : List Event
deriving DecidableEq

/-- The calls of the delete phase: `os.Stat` and `os.RemoveAll`. -/
def Event.isDelete : Event → Bool
  | Event.stat _ => true
  | Event.removeAll _ => true
  | _ => false

/-- The calls that write the list file. -/
def Event.isWrite : Event → Bool
  | Event.write _ _ => true
  | _ => false

/-- The calls that start a subprocess. -/
def Event.isStart : Event → Bool
  | Event.start _ => true
  | Event.combinedOutput _ => true
  | _ => false

/-- The world after a call `e` that leaves the state `s`. -/
def World.step {σ : Type} (w : World σ) (s : σ) (e : Event) : World σ :=
  { state := s, trace := w.trace ++ [e] }

/-! ## Go `path/filepath` on a Unix system -/

/-- One step of `filepath.Clean` on the path elements read so far (`stack`):
an empty element and `.` are dropped, `..` removes the element before it when
that is no `..`, is kept at the start of an unrooted path and dropped at the
root; any other element is kept. -/
def cleanStep (rooted : Bool) (stack : List GoString) (elem : GoString) : List GoString :=
  if elem = [] ∨ elem = ".".toList then stack
  else if elem = "..".toList then
    match stack.getLast? with
    | some top => if top ≠ "..".toList then stack.dropLast else stack ++ [elem]
    | none => if rooted then stack else stack ++ [elem]
  else stack ++ [elem]

/-- Go `strings.Join(elems, "/")`. -/
def joinSlash : List GoString → GoString
  | [] => []
  | [a] => a
  | a :: b :: rest => a ++ "/".toList ++ joinSlash (b :: rest)

/-- The path elements `filepath.Clean` keeps. -/
def cleanElems (path : GoString) : List GoString :=
  (split (Char.ofNat 47) path).foldl (cleanStep (hasPrefix path "/".toList)) []

/-- Go `filepath.Clean`: the shortest equivalent path; the empty result of an
unrooted path is written `.`. -/
def filepathClean (path : GoString) : GoString :=
  if path = [] then ".".toList
  else
    let out := (if hasPrefix path "/".toList then "/".toList else []) ++ joinSlash (cleanElems path)
    if out = [] then ".".toList else out

/-- Go `filepath.Join(a, b)`: the non-empty arguments from the first on, joined
by `/` and cleaned; the empty string when both are empty. -/
def filepathJoin (a b : GoString) : GoString :=
  if a ≠ [] then filepathClean (a ++ "/".toList ++ b)
  else if b ≠ [] then filepathClean b
  else []

/-- The elements of a path: its pieces between slashes other than the empty
piece and `.`. -/
def pathElems (path : GoString) : List GoString :=
  (split (Char.ofNat 47) path).filter (fun e => decide (e ≠ [] ∧ e ≠ ".".toList))

/-- The cleaned path `full` lies strictly inside the directory `root`: both
are rooted or both are not, and the elements of `full` are those of the cleaned
`root` followed by at least one more element, none of them `..`. -/
def strictlyInside (root full : GoString) : Bool :=
  let r := pathElems (filepathClean root)
  let f := pathElems full
  (hasPrefix full "/".toList == hasPrefix (filepathClean root) "/".toList) &&
  r.isPrefixOf f && decide (r.length < f.length) && decide ("..".toList ∉ f.drop r.length)

/-- A path element that `filepath.Clean` keeps: not empty, not `.`, and free
of slashes. -/
def KeptElem (e : GoString) : Prop := e ≠ [] ∧ e ≠ ".".toList ∧ Char.ofNat 47 ∉ e

/-! ## internal/sync/sync.go: the calls to the operating system -/

/-- SyncEngine.ValidateProfile. -/
def ValidateProfile {σ : Type} (os : OS σ) (cfg : Config) (profile : SyncProfile)
    (w : World σ) : World σ × Option GoString :=
  let w := w.step w.state (Event.stat profile.LocalPath)
  if os.statNotExist w.state profile.LocalPath then
    (w, some ("로컬 경로가 존재하지 않습니다: ".toList ++ profile.LocalPath))
  else if cfg.Server.Host = [] then
    (w, some "서버 호스트가 설정되지 않았습니다".toList)
  else if cfg.Server.User = [] then
    (w, some "서버 사용자가 설정되지 않았습니다".toList)
  else (w, none)

/-- SyncEngine.DryRun: the parsed result, or the error of the preview command. -/
def DryRun {σ : Type} (os : OS σ) (cfg : Config) (profile : SyncProfile)
    (w : World σ) : World σ × Except GoString SyncResult :=
  let cmd := buildRsyncCommand cfg profile true
  let r := os.combinedOutput w.state cmd
  let w := w.step r.1 (Event.combinedOutput cmd)
  match r.2.2 with
  | some err => (w, Except.error ("rsync 드라이런 실행 실패: ".toList ++ err))
  | none => (w, Except.ok (parseRsyncOutput r.2.1))

/-- The error syncFiles returns for an `*exec.ExitError` with this exit code. -/
def exitCodeError (code : Int) : GoString :=
  if code = 23 then "rsync 부분 실패 (일부 파일 전송 실패)".toList
  else if code = 24 then "rsync 일시적 실패 (재시도 필요)".toList
  else "rsync 실행 실패 (exit code ".toList ++ fmtInt code ++ ")".toList

/-- The loop of syncFiles that writes the list file. -/
def writeFileList {σ : Type} (os : OS σ) (name : GoString) (changes : List FileChange)
    (w : World σ) : World σ :=
  changes.foldl (fun w change =>
    if change.Type_ = ChangeTypeNew ∨ change.Type_ = ChangeTypeModified then
      w.step (os.write w.state name (change.Path ++ [Char.ofNat 10]))
        (Event.write name (change.Path ++ [Char.ofNat 10]))
    else w) w

/-- The world of syncFiles once the list file `name` is created, written and
closed: `os.CreateTemp`, the write loop, `tmpFile.Close()`. -/
def listFileClosed {σ : Type} (os : OS σ) (name : GoString) (changes : List FileChange)
    (w : World σ) : World σ :=
  let w := w.step (os.createTemp w.state).1 Event.createTemp
  let w := writeFileList os name changes w
  w.step (os.close w.state name) (Event.close name)

/-- The part of syncFiles that runs the apply command on the list file `name`.
The deferred `os.Remove` of the list file runs on every return. -/
def runCopy {σ : Type} (os : OS σ) (cfg : Config) (profile : SyncProfile)
    (name : GoString) (w : World σ) : World σ × Option GoString :=
  let cmd := buildRsyncCommandWithFileList cfg profile name
  let r := os.start w.state cmd
  let w := w.step r.1 (Event.start cmd)
  match r.2 with
  | some err =>
    (w.step (os.remove w.state name) (Event.remove name),
      some ("파일 복사 시작 실패: ".toList ++ err))
  | none =>
    let r := os.wait w.state cmd
    let w := w.step r.1 (Event.wait cmd)
    match r.2 with
    | WaitResult.exitError code =>
      (w.step (os.remove w.state name) (Event.remove name), some (exitCodeError code))
    | WaitResult.otherError err =>
      (w.step (os.remove w.state name) (Event.remove name),
        some ("파일 복사 실행 실패: ".toList ++ err))
    | WaitResult.success =>
      (w.step (os.remove w.state name) (Event.remove name), none)

/-- SyncEngine.syncFiles: create the list file, write and close it, run the
apply command. When the file cannot be created nothing else is done. -/
def syncFiles {σ : Type} (os : OS σ) (cfg : Config) (profile : SyncProfile)
    (changes : List FileChange) (w : World σ) : World σ × Option GoString :=
  match (os.createTemp w.state).2 with
  | Except.error err =>
    (w.step (os.createTemp w.state).1 Event.createTemp,
      some ("임시 파일 생성 실패: ".toList ++ err))
  | Except.ok name => runCopy os cfg profile name (listFileClosed os name changes w)

/-- The body of the loop of deleteFiles, on one listed path. -/
def deleteOne {σ : Type} (os : OS σ) (profile : SyncProfile) (w : World σ)
    (filePath : GoString) : World σ :=
  let fullPath := filepathJoin profile.LocalPath filePath
  let w := w.step w.state (Event.stat fullPath)
  if os.statNotExist w.state fullPath then w
  else
    let r := os.removeAll w.state fullPath
    let w := w.step r.1 (Event.removeAll fullPath)
    match r.2 with
    | some _ => w
    | none => w

/-- SyncEngine.deleteFiles. -/
def deleteFiles {σ : Type} (os : OS σ) (profile : SyncProfile) (deletions : List GoString)
    (w : World σ) : World σ × Option GoString :=
  let w := deletions.foldl (deleteOne os profile) w
  (w, none)

/-- SyncEngine.Sync. -/
def SyncEngine.Sync {σ : Type} (os : OS σ) (cfg : Config) (profile : SyncProfile)
    (changes : SyncResult) (w : World σ) : World σ × Option GoString :=
  let copied :=
    if changes.Changes.length > 0 then syncFiles os cfg profile changes.Changes w
    else (w, none)
  match copied.2 with
  | some err => (copied.1, some ("파일 동기화 실패: ".toList ++ err))
  | none =>
    let deleted :=
      if changes.Deletions.length > 0 then deleteFiles os profile changes.Deletions copied.1
      else (copied.1, none)
    match deleted.2 with
    | some err => (deleted.1, some ("파일 삭제 실패: ".toList ++ err))
    | none => (deleted.1, none)

/-! ## internal/app/app.go -/

/-- UIConfig of config.go (`cfg.UI`). -/
structure UIConfig where
  Theme : GoString
  ShowProgress : Bool
  ConfirmActions : Bool
deriving DecidableEq

/-- The function confirmSync of app.go. Go `strings.ToLower` is the parameter `toLower`. -/
def confirmSync {σ : Type} (os : OS σ) (toLower : GoString → GoString)
    (w : World σ) : World σ × Bool :=
  let r := os.readString w.state
  let w := w.step r.1 Event.readString
  match r.2.2 with
  | some _ => (w, false)
  | none =>
    let input := toLower (trimSpace r.2.1)
    (w, decide (input = "y".toList ∨ input = "yes".toList))

/-- The function Sync of app.go from the point where the profile is selected:
validation, preview, and the decision to apply. -/
def app.Sync {σ : Type} (os : OS σ) (toLower : GoString → GoString) (cfg : Config)
    (ui : UIConfig) (selectedProfile : SyncProfile) (dryRun autoConfirm : Bool)
    (w : World σ) : World σ × Option GoString :=
  let v := ValidateProfile os cfg selectedProfile w
  match v.2 with
  | some err => (v.1, some ("프로필 유효성 검사 실패: ".toList ++ err))
  | none =>
    let d := DryRun os cfg selectedProfile v.1
    match d.2 with
    | Except.error err => (d.1, some ("드라이런 실행 실패: ".toList ++ err))
    | Except.ok changes =>
      if !changes.HasChanges && !changes.HasDeletions then (d.1, none)
      else if dryRun then (d.1, none)
      else
        let c := if !autoConfirm && ui.ConfirmActions then confirmSync os toLower d.1
          else (d.1, true)
        if !c.2 then (c.1, none)
        else
          let r := SyncEngine.Sync os cfg selectedProfile changes c.1
          match r.2 with
          | some err => (r.1, some ("동기화 실행 실패: ".toList ++ err))
          | none => (r.1, none)

/-! ## The phases of Sync, as the specification names them -/

/-- The copy phase of SyncEngine.Sync: syncFiles on the change list, run only
when that list is not empty. -/
def copyPhase {σ : Type} (os : OS σ) (cfg : Config) (profile : SyncProfile)
    (changes : SyncResult) (w : World σ) : World σ × Option GoString :=
  if changes.Changes = [] then (w, none) else syncFiles os cfg profile changes.Changes w

/-- The delete phase of SyncEngine.Sync: deleteFiles on the deletion list, run
only when that list is not empty. -/
def deletePhase {σ : Type} (os : OS σ) (profile : SyncProfile)
    (changes : SyncResult) (w : World σ) : World σ × Option GoString :=
  if changes.Deletions = [] then (w, none) else deleteFiles os profile changes.Deletions w

/-! ## An operating system for the examples -/

/-- An operating system whose state is the list of the paths that exist: the
list file is `/tmp/sync-files-1.txt`, the subprocess starts and `Wait` returns
`exit`, the preview prints `output`, and standard input holds the line `answer`;
`RemoveAll` removes a path and what lies below it. -/
def exampleOS (exit : WaitResult) (output answer : GoString) : OS (List GoString) where
  statNotExist := fun s path => decide (path ∉ s)
  removeAll := fun s path =>
    (s.filter (fun q => !(decide (q = path) || hasPrefix q (path ++ "/".toList))), none)
  createTemp := fun s => (s, Except.ok "/tmp/sync-files-1.txt".toList)
  write := fun s _ _ => s
  close := fun s _ => s
  remove := fun s _ => s
  start := fun s _ => (s, none)
  wait := fun s _ => (s, exit)
  combinedOutput := fun s _ => (s, output, none)
  readString := fun s => (s, answer, none)

/-- The operating system of the examples with standard input cut off: the
read returns the data `answer` together with the error `EOF`, as `ReadString`
does when the input ends before a newline. -/
def exampleOSCutOff (exit : WaitResult) (output answer : GoString) : OS (List GoString) :=
  { exampleOS exit output answer with
    readString := fun s => (s, answer, some "EOF".toList) }

/-- Lower-casing of the ASCII letters, for the examples. -/
def asciiLower (s : GoString) : GoString :=
  s.map (fun c => if 65 ≤ c.toNat ∧ c.toNat ≤ 90 then Char.ofNat (c.toNat + 32) else c)

/-- A configuration for the examples. -/
def exampleConfig : Config :=
  { Server := { Host := "host".toList, User := "user".toList, Port := 22, KeyPath := [] },
    Sync := { Options := ["-r".toList, "-z".toList], DefaultExcludes := [] } }

/-- A profile for the examples, with the local root `/mnt/usb`. -/
def exampleProfile : SyncProfile :=
  { Name := "p".toList, Description := [], ServerPath := "/srv".toList,
    LocalPath := "/mnt/usb".toList, Options := [], Includes := [], Excludes := [] }

/-! ## Lemmas on the string functions -/

theorem split_of_not_mem (sep : Char) (s : GoString) (h : sep ∉ s) : split sep s = [s] := by
  induction s with
  | nil => rfl
  | cons c cs ih =>
    have hc : c ≠ sep := fun e => h (by simp [e])
    have hcs : sep ∉ cs := fun e => h (by simp [e])
    simp [split, hc, ih hcs]

theorem runeLen_pos (c : Char) : 1 ≤ runeLen c := by
  unfold runeLen
  split_ifs <;> omega

theorem length_le_len (s : GoString) : s.length ≤ len s := by
  induction s with
  | nil => simp [len]
  | cons c cs ih =>
    have := runeLen_pos c
    simp only [len, List.map_cons, List.sum_cons, List.length_cons] at ih ⊢
    omega

theorem fieldsAux_ne_nil (s cur tok : GoString) (h : tok ∈ fieldsAux s cur) : tok ≠ [] := by
  induction s generalizing cur with
  | nil =>
    unfold fieldsAux at h
    split_ifs at h with hc
    · simp at h
    · simp only [List.mem_singleton] at h
      rw [h]; exact hc
  | cons c cs ih =>
    unfold fieldsAux at h
    split_ifs at h with hs hc
    · exact ih _ h
    · rcases List.mem_cons.mp h with h | h
      · rw [h]; exact hc
      · exact ih _ h
    · exact ih _ h

theorem fields_ne_nil (s tok : GoString) (h : tok ∈ fields s) : tok ≠ [] :=
  fieldsAux_ne_nil s [] tok h

theorem hasPrefix_iff (s p : GoString) : hasPrefix s p = true ↔ p <+: s := by
  simp [hasPrefix]

theorem contains_iff (s sub : GoString) : contains s sub = true ↔ sub <:+: s := by
  induction s with
  | nil => simp [contains, hasPrefix]
  | cons c cs ih => simp [contains, hasPrefix, ih, List.infix_cons_iff]

/-- Dropping leading white space keeps every occurrence of a text that starts
with a non-space rune. -/
theorem infix_dropWhile_of_head (x : Char) (w l : GoString) (hx : isSpace x = false)
    (h : x :: w <:+: l) : x :: w <:+: l.dropWhile isSpace := by
  induction l with
  | nil => simp at h
  | cons c cs ih =>
    by_cases hc : isSpace c = true
    · rw [List.dropWhile_cons_of_pos hc]
      rcases List.infix_cons_iff.mp h with hp | hi
      · obtain ⟨t, ht⟩ := hp
        have hxc : x = c := by
          simp only [List.cons_append, List.cons.injEq] at ht
          exact ht.1
        rw [hxc, hc] at hx
        cases hx
      · exact ih hi
    · rw [List.dropWhile_cons_of_neg hc]
      exact h

/-- Dropping leading white space keeps an occurrence of `sp :: y :: v` with `y`
no space, or leaves `y :: v` at the very start. -/
theorem infix_dropWhile_or_head (sp y : Char) (v r : GoString) (hy : isSpace y = false)
    (h : sp :: y :: v <:+: r) :
    sp :: y :: v <:+: r.dropWhile isSpace ∨ y :: v <+: r.dropWhile isSpace := by
  induction r with
  | nil => simp at h
  | cons c cs ih =>
    by_cases hc : isSpace c = true
    · rw [List.dropWhile_cons_of_pos hc]
      rcases List.infix_cons_iff.mp h with hp | hi
      · right
        obtain ⟨t, ht⟩ := hp
        have hcs : cs = y :: (v ++ t) := by
          simp only [List.cons_append, List.cons.injEq] at ht
          exact ht.2.symm
        rw [hcs, List.dropWhile_cons_of_neg (by simp [hy])]
        exact ⟨t, rfl⟩
      · exact ih hi
    · left
      rw [List.dropWhile_cons_of_neg hc]
      exact h

/-- TrimSpace keeps every occurrence of a text that starts and ends with a
non-space rune. -/
theorem infix_trimSpace_of_ends (sub l : GoString) (x y : Char) (w v : GoString)
    (hhead : sub = x :: w) (hx : isSpace x = false)
    (hlast : sub.reverse = y :: v) (hy : isSpace y = false)
    (h : sub <:+: l) : sub <:+: trimSpace l := by
  have h1 : sub <:+: l.dropWhile isSpace := by
    rw [hhead] at h ⊢
    exact infix_dropWhile_of_head x w l hx h
  have h2 : y :: v <:+: (l.dropWhile isSpace).reverse := by
    rw [← hlast]
    exact List.reverse_infix.mpr h1
  have h3 := infix_dropWhile_of_head y v _ hy h2
  unfold trimSpace
  rw [← List.reverse_infix, List.reverse_reverse, hlast]
  exact h3

/-- TrimSpace keeps an occurrence of a word followed by one more rune, or
leaves the word at the very end of the trimmed text. -/
theorem infix_trimSpace_or_suffix (w l : GoString) (x y sp : Char) (w' v : GoString)
    (hhead : w = x :: w') (hx : isSpace x = false)
    (hlast : w.reverse = y :: v) (hy : isSpace y = false)
    (h : w ++ [sp] <:+: l) : w ++ [sp] <:+: trimSpace l ∨ w <:+ trimSpace l := by
  have h1 : w ++ [sp] <:+: l.dropWhile isSpace := by
    rw [hhead] at h ⊢
    exact infix_dropWhile_of_head x (w' ++ [sp]) l hx h
  have hrev : (w ++ [sp]).reverse = sp :: y :: v := by
    rw [List.reverse_append, hlast]
    rfl
  have h2 : sp :: y :: v <:+: (l.dropWhile isSpace).reverse := by
    rw [← hrev]
    exact List.reverse_infix.mpr h1
  unfold trimSpace
  rcases infix_dropWhile_or_head sp y v _ hy h2 with h3 | h3
  · left
    rw [← List.reverse_infix, List.reverse_reverse, hrev]
    exact h3
  · right
    rw [← List.reverse_prefix, List.reverse_reverse, hlast]
    exact h3

theorem fieldsAux_nonspace (w cur : GoString) (hw : ∀ c ∈ w, isSpace c = false) :
    fieldsAux w cur = if cur ++ w = [] then [] else [cur ++ w] := by
  induction w generalizing cur with
  | nil => simp [fieldsAux]
  | cons c cs ih =>
    have hc : isSpace c = false := hw c (by simp)
    have hcs := ih (cur ++ [c]) (fun d hd => hw d (by simp [hd]))
    simp [fieldsAux, hc, hcs]

theorem fieldsAux_append_nonspace (pre w cur : GoString)
    (hw : ∀ c ∈ w, isSpace c = false) (hne : w ≠ []) :
    ∃ toks cur', fieldsAux (pre ++ w) cur = toks ++ [cur' ++ w] := by
  induction pre generalizing cur with
  | nil => exact ⟨[], cur, by simp [fieldsAux_nonspace w cur hw, hne]⟩
  | cons c cs ih =>
    have e : (c :: cs) ++ w = c :: (cs ++ w) := rfl
    rw [e, fieldsAux]
    split_ifs with hs hc
    · exact ih []
    · obtain ⟨toks, cur', h⟩ := ih []
      exact ⟨cur :: toks, cur', by rw [h]; rfl⟩
    · exact ih _

/-- A text that ends with a non-empty word free of white space has a last
token, and that token ends with the word. -/
theorem fields_getLast_of_suffix (t w : GoString) (hw : ∀ c ∈ w, isSpace c = false)
    (hne : w ≠ []) (hsuf : w <:+ t) :
    ∃ tok, (fields t).getLast? = some tok ∧ w <:+ tok := by
  obtain ⟨pre, rfl⟩ := hsuf
  obtain ⟨toks, cur', h⟩ := fieldsAux_append_nonspace pre w [] hw hne
  exact ⟨cur' ++ w, by simp [fields, h], List.suffix_append _ _⟩

theorem dropWhile_isSpace_cons (l : GoString) (h : ∃ c ∈ l, isSpace c = false) :
    ∃ a as, l.dropWhile isSpace = a :: as ∧ isSpace a = false := by
  induction l with
  | nil => simp at h
  | cons c cs ih =>
    by_cases hc : isSpace c = true
    · rw [List.dropWhile_cons_of_pos hc]
      apply ih
      obtain ⟨d, hd, hds⟩ := h
      rcases List.mem_cons.mp hd with e | e
      · rw [e, hc] at hds
        cases hds
      · exact ⟨d, e, hds⟩
    · rw [List.dropWhile_cons_of_neg hc]
      exact ⟨c, cs, rfl, by simpa using hc⟩

/-- TrimSpace of a text with a non-space rune is not empty. -/
theorem trimSpace_ne_nil (l : GoString) (h : ∃ c ∈ l, isSpace c = false) :
    trimSpace l ≠ [] := by
  obtain ⟨a, as, h1, ha⟩ := dropWhile_isSpace_cons l h
  obtain ⟨b, bs, h2, _⟩ := dropWhile_isSpace_cons (a :: as).reverse ⟨a, by simp, ha⟩
  unfold trimSpace
  rw [h1, h2]
  simp

/-- The loop body of parseRsyncOutput leaves the result as it is on a line that
is no deletion record and fails an acceptance test. -/
theorem parseLine_ignored (r : SyncResult) (line : GoString)
    (hdel : hasPrefix (trimSpace line) "*deleting".toList = false)
    (h : len (trimSpace line) < 12 ∨ isStatsLine (trimSpace line) = true ∨
      (fields (trimSpace line)).length < 2 ∨
      validChangeType ((fields (trimSpace line)).headD []) = false ∨
      statsPath ((fields (trimSpace line)).getLastD []) = true) :
    parseLine r line = r := by
  unfold parseLine
  simp only [hdel, Bool.false_eq_true, if_false]
  split_ifs with h1 h2 h3 h4 h5
  all_goals first
    | rfl
    | (exfalso
       rcases h with h | h | h | h | h
       · omega
       · exact h3 h
       · omega
       · simp_all
       · simp_all)

/-- A line that contains a word followed by a blank either still contains it
after TrimSpace, or its last token ends with the word. -/
theorem trimmed_contains_or_last_token (w line : GoString) (x y : Char) (w' v : GoString)
    (hhead : w = x :: w') (hx : isSpace x = false)
    (hlast : w.reverse = y :: v) (hy : isSpace y = false)
    (hw : ∀ c ∈ w, isSpace c = false)
    (h : contains line (w ++ [Char.ofNat 32]) = true) :
    contains (trimSpace line) (w ++ [Char.ofNat 32]) = true ∨
    ∃ tok, (fields (trimSpace line)).getLast? = some tok ∧ contains tok w = true := by
  rw [contains_iff] at h
  rcases infix_trimSpace_or_suffix w line x y _ w' v hhead hx hlast hy h with h1 | h1
  · left
    exact (contains_iff _ _).mpr h1
  · right
    have hne : w ≠ [] := by
      rw [hhead]
      exact List.cons_ne_nil _ _
    obtain ⟨tok, htok, hsuf⟩ := fields_getLast_of_suffix _ w hw hne h1
    exact ⟨tok, htok, (contains_iff _ _).mpr hsuf.isInfix⟩

/-- A line that contains a text starting and ending with a non-space rune
still contains it after TrimSpace. -/
theorem trimmed_contains (sub line : GoString) (x y : Char) (w v : GoString)
    (hhead : sub = x :: w) (hx : isSpace x = false)
    (hlast : sub.reverse = y :: v) (hy : isSpace y = false)
    (h : contains line sub = true) : contains (trimSpace line) sub = true :=
  (contains_iff _ _).mpr
    (infix_trimSpace_of_ends sub line x y w v hhead hx hlast hy ((contains_iff _ _).mp h))

/-- The result of parseRsyncOutput on a text without a newline: the loop body
runs once, on the whole text, and the two flags are then set. -/
theorem parseRsyncOutput_line (line : GoString) (h : Char.ofNat 10 ∉ line) :
    parseRsyncOutput line =
      { parseLine ⟨[], [], none, false, false⟩ line with
        HasChanges := decide ((parseLine ⟨[], [], none, false, false⟩ line).Changes.length > 0)
        HasDeletions :=
          decide ((parseLine ⟨[], [], none, false, false⟩ line).Deletions.length > 0) } := by
  simp [parseRsyncOutput, split_of_not_mem _ _ h]

/-- The append loop over patterns adds one pair per pattern after what is
already there. -/
theorem foldl_flag_pairs (flag : GoString) (patterns args : List GoString) :
    patterns.foldl (fun args pattern => args ++ [flag, pattern]) args =
      args ++ flagPairs flag patterns := by
  induction patterns generalizing args with
  | nil => simp [flagPairs]
  | cons a as ih => simp [flagPairs, ih]

theorem mem_flagPairs (flag x : GoString) (patterns : List GoString) :
    x ∈ flagPairs flag patterns ↔ patterns ≠ [] ∧ (x = flag ∨ x ∈ patterns) := by
  induction patterns with
  | nil => simp [flagPairs]
  | cons a as ih =>
    simp only [flagPairs, List.mem_cons, ih]
    by_cases h : as = []
    · simp [h]
    · simp [h]
      tauto

/-- The remote-shell string starts with `s`. -/
theorem sshArgs_head (cfg : Config) : ∃ rest, sshArgs cfg = Char.ofNat 115 :: rest := by
  unfold sshArgs
  split_ifs
  · exact ⟨_, rfl⟩
  · exact ⟨_, rfl⟩

/-- A text built by appending `/` ends with `/`. -/
theorem getLast?_append_slash (x : GoString) :
    (x ++ "/".toList).getLast? = some (Char.ofNat 47) := by
  have e : "/".toList = [Char.ofNat 47] := rfl
  rw [e, List.getLast?_append]
  rfl

/-! ## The claims -/

/-- C1: a single output line whose trimmed form does not start with the deletion
marker, has at least 12 characters, contains no statistics pattern, splits into
at least two tokens, has a first token with a recognised leading symbol and a
last token that is no statistics fragment, parses to exactly one change and no
deletion; the change has the last token as path and is New when the first token
contains `+++++++`, Modified otherwise, and is never Deleted or Unchanged. -/
theorem C1_itemized_line_one_change (line code path : GoString)
    (hnl : Char.ofNat 10 ∉ line)
    (hdel : hasPrefix (trimSpace line) "*deleting".toList = false)
    (hlen : 12 ≤ (trimSpace line).length)
    (hstats : isStatsLine (trimSpace line) = false)
    (htokens : 2 ≤ (fields (trimSpace line)).length)
    (hcode : (fields (trimSpace line)).head? = some code)
    (hpath : (fields (trimSpace line)).getLast? = some path)
    (hvalid : validChangeType code = true)
    (hfrag : statsPath path = false) :
    parseRsyncOutput line =
      { Changes := [{ Type_ := if contains code "+++++++".toList = true then ChangeTypeNew
                               else ChangeTypeModified,
                      Path := path, Size := [], Checksum := [] }],
        Deletions := [], Error := none, HasChanges := true, HasDeletions := false } ∧
    (if contains code "+++++++".toList = true then ChangeTypeNew else ChangeTypeModified)
      ≠ ChangeTypeDeleted ∧
    (if contains code "+++++++".toList = true then ChangeTypeNew else ChangeTypeModified)
      ≠ ChangeTypeUnchanged := by
  have hne : trimSpace line ≠ [] := by
    intro h
    rw [h] at hlen
    simp at hlen
  have hbytes : 12 ≤ len (trimSpace line) := le_trans hlen (length_le_len _)
  have hhead : (fields (trimSpace line)).headD [] = code := by
    cases hf : fields (trimSpace line) with
    | nil => rw [hf] at hcode; simp at hcode
    | cons a as => rw [hf] at hcode; simpa using hcode
  have hlast : (fields (trimSpace line)).getLastD [] = path := by
    rw [List.getLastD_eq_getLast?, hpath]; rfl
  have hpne : path ≠ [] :=
    fields_ne_nil _ _ (List.mem_of_getLast?_eq_some hpath)
  refine ⟨?_, ?_, ?_⟩
  · rw [parseRsyncOutput_line line hnl]
    simp only [parseLine, hne, hdel, hbytes, hstats, htokens, hhead, hlast, hvalid, hfrag]
    generalize contains code "+++++++".toList = b
    cases b <;> simp [hpne]
  · split_ifs <;> decide
  · split_ifs <;> decide

/-- Witnesses of C1: `>f+++++++++ data/new.txt` gives one New change
`data/new.txt`, and `>fcsT...... data/existing.txt` one Modified change
`data/existing.txt`. -/
theorem C1_itemized_line_one_change_witness :
    parseRsyncOutput ">f+++++++++ data/new.txt".toList =
      { Changes := [{ Type_ := ChangeTypeNew, Path := "data/new.txt".toList,
                      Size := [], Checksum := [] }],
        Deletions := [], Error := none, HasChanges := true, HasDeletions := false } ∧
    parseRsyncOutput ">fcsT...... data/existing.txt".toList =
      { Changes := [{ Type_ := ChangeTypeModified, Path := "data/existing.txt".toList,
                      Size := [], Checksum := [] }],
        Deletions := [], Error := none, HasChanges := true, HasDeletions := false } :=
  ⟨(C1_itemized_line_one_change ">f+++++++++ data/new.txt".toList ">f+++++++++".toList
      "data/new.txt".toList (by decide) (by decide) (by decide) (by decide) (by decide)
      (by decide) (by decide) (by decide) (by decide)).1.trans (by decide),
   (C1_itemized_line_one_change ">fcsT...... data/existing.txt".toList ">fcsT......".toList
      "data/existing.txt".toList (by decide) (by decide) (by decide) (by decide) (by decide)
      (by decide) (by decide) (by decide) (by decide)).1.trans (by decide)⟩

/-- C2: a line whose trimmed form is the marker `*deleting` followed by a text
with a non-space rune records exactly one deletion, the text after the marker
with its surrounding white space stripped, and no change. -/
theorem C2_deleting_line_one_deletion (line rest : GoString)
    (hnl : Char.ofNat 10 ∉ line)
    (hmark : trimSpace line = "*deleting".toList ++ rest)
    (hrest : ∃ c ∈ rest, isSpace c = false) :
    parseRsyncOutput line =
      { Changes := [], Deletions := [trimSpace rest], Error := none,
        HasChanges := false, HasDeletions := true } := by
  have hp : hasPrefix ("*deleting".toList ++ rest) "*deleting".toList = true :=
    (hasPrefix_iff _ _).mpr (List.prefix_append _ _)
  have hd : List.drop 9 ("*deleting".toList ++ rest) = rest := rfl
  have hne : "*deleting".toList ++ rest ≠ [] := by
    intro h
    cases h
  have hr := trimSpace_ne_nil rest hrest
  rw [parseRsyncOutput_line line hnl]
  unfold parseLine
  rw [hmark]
  simp only [hp, hd, hne, if_true, if_false]
  simp [hr]

/-- Witnesses of C2: `*deleting build/output.bin` gives the one deletion
`build/output.bin` and no change; a path keeps its internal spaces. -/
theorem C2_deleting_line_one_deletion_witness :
    parseRsyncOutput "*deleting build/output.bin".toList =
      { Changes := [], Deletions := ["build/output.bin".toList], Error := none,
        HasChanges := false, HasDeletions := true } ∧
    parseRsyncOutput "  *deleting   my old file.txt ".toList =
      { Changes := [], Deletions := ["my old file.txt".toList], Error := none,
        HasChanges := false, HasDeletions := true } :=
  ⟨(C2_deleting_line_one_deletion "*deleting build/output.bin".toList
      " build/output.bin".toList (by decide) (by decide)
      ⟨Char.ofNat 98, by decide, by decide⟩).trans (by decide),
   (C2_deleting_line_one_deletion "  *deleting   my old file.txt ".toList
      "   my old file.txt".toList (by decide) (by decide)
      ⟨Char.ofNat 109, by decide, by decide⟩).trans (by decide)⟩

/-- C3: a line that does not start, after trimming, with `*deleting` and that
contains one of the statistics patterns `sent `, `received `, `total size`,
`bytes/sec`, `speedup`, `Transfer starting` records no change and no deletion. -/
theorem C3_statistics_line_ignored (line sub : GoString)
    (hnl : Char.ofNat 10 ∉ line)
    (hdel : hasPrefix (trimSpace line) "*deleting".toList = false)
    (hsub : sub ∈ ["sent ".toList, "received ".toList, "total size".toList,
      "bytes/sec".toList, "speedup".toList, "Transfer starting".toList])
    (hcontains : contains line sub = true) :
    parseRsyncOutput line =
      { Changes := [], Deletions := [], Error := none,
        HasChanges := false, HasDeletions := false } := by
  have key : isStatsLine (trimSpace line) = true ∨
      ∃ tok, (fields (trimSpace line)).getLast? = some tok ∧ statsPath tok = true := by
    simp only [List.mem_cons, List.mem_singleton, List.not_mem_nil, or_false] at hsub
    rcases hsub with e | e | e | e | e | e
    · rw [e] at hcontains
      rcases trimmed_contains_or_last_token "sent".toList line (Char.ofNat 115)
        (Char.ofNat 116) "ent".toList "nes".toList rfl (by decide) rfl (by decide)
        (by decide) hcontains with h | ⟨tok, h1, h2⟩
      · left
        have h' : contains (trimSpace line) "sent ".toList = true := h
        simp only [isStatsLine, h', Bool.true_or]
      · right
        exact ⟨tok, h1, by simp only [statsPath, h2, Bool.true_or, Bool.or_true]⟩
    · rw [e] at hcontains
      rcases trimmed_contains_or_last_token "received".toList line (Char.ofNat 114)
        (Char.ofNat 100) "eceived".toList "eviecer".toList rfl (by decide) rfl (by decide)
        (by decide) hcontains with h | ⟨tok, h1, h2⟩
      · left
        have h' : contains (trimSpace line) "received ".toList = true := h
        simp only [isStatsLine, h', Bool.true_or, Bool.or_true]
      · right
        exact ⟨tok, h1, by simp only [statsPath, h2, Bool.or_true]⟩
    · left
      rw [e] at hcontains
      have h : contains (trimSpace line) "total size".toList = true :=
        trimmed_contains "total size".toList line (Char.ofNat 116) (Char.ofNat 101)
          "otal size".toList "zis latot".toList rfl (by decide) (by decide) (by decide) hcontains
      simp only [isStatsLine, h, Bool.true_or, Bool.or_true]
    · left
      rw [e] at hcontains
      have h : contains (trimSpace line) "bytes/sec".toList = true :=
        trimmed_contains "bytes/sec".toList line (Char.ofNat 98) (Char.ofNat 99)
          "ytes/sec".toList "es/setyb".toList rfl (by decide) (by decide) (by decide) hcontains
      simp only [isStatsLine, h, Bool.true_or, Bool.or_true]
    · left
      rw [e] at hcontains
      have h : contains (trimSpace line) "speedup".toList = true :=
        trimmed_contains "speedup".toList line (Char.ofNat 115) (Char.ofNat 112)
          "peedup".toList "udeeps".toList rfl (by decide) (by decide) (by decide) hcontains
      simp only [isStatsLine, h, Bool.true_or, Bool.or_true]
    · left
      rw [e] at hcontains
      have h : contains (trimSpace line) "Transfer starting".toList = true :=
        trimmed_contains "Transfer starting".toList line (Char.ofNat 84) (Char.ofNat 103)
          "ransfer starting".toList "nitrats refsnarT".toList rfl (by decide) (by decide) (by decide) hcontains
      simp only [isStatsLine, h, Bool.or_true]
  have hign : parseLine ⟨[], [], none, false, false⟩ line = ⟨[], [], none, false, false⟩ := by
    apply parseLine_ignored _ _ hdel
    rcases key with h | ⟨tok, h1, h2⟩
    · exact Or.inr (Or.inl h)
    · refine Or.inr (Or.inr (Or.inr (Or.inr ?_)))
      rw [List.getLastD_eq_getLast?, h1]
      exact h2
  rw [parseRsyncOutput_line line hnl, hign]
  rfl

/-- Witness of C3: the footer `sent 1234 bytes  received 56 bytes  789.00 bytes/sec`
gives an empty change list and an empty deletion list. -/
theorem C3_statistics_line_ignored_witness :
    parseRsyncOutput "sent 1234 bytes  received 56 bytes  789.00 bytes/sec".toList =
      { Changes := [], Deletions := [], Error := none,
        HasChanges := false, HasDeletions := false } :=
  C3_statistics_line_ignored "sent 1234 bytes  received 56 bytes  789.00 bytes/sec".toList
    "sent ".toList (by decide) (by decide) (by decide) (by decide)

/-- C4, counterexample: the line `>f+++ é.txt` (é is U+00E9) has 11
characters, fewer than 12, and does not start with `*deleting`, yet it is not
ignored: Go's `len` counts its 12 bytes, and one Modified change `é.txt` is
recorded. -/
theorem C4_short_line_counterexample :
    (trimSpace ">f+++ \u00e9.txt".toList).length = 11 ∧
    len (trimSpace ">f+++ \u00e9.txt".toList) = 12 ∧
    hasPrefix (trimSpace ">f+++ \u00e9.txt".toList) "*deleting".toList = false ∧
    parseRsyncOutput ">f+++ \u00e9.txt".toList =
      { Changes := [{ Type_ := ChangeTypeModified, Path := "\u00e9.txt".toList,
                      Size := [], Checksum := [] }],
        Deletions := [], Error := none, HasChanges := true, HasDeletions := false } := by
  decide

/-- C4, amended: a line whose trimmed form does not start with `*deleting` is
ignored (no change, no deletion) whenever the trimmed form is shorter than 12
bytes of UTF-8, or has at most one token, or has a first token that begins with
none of `<`, `>`, `c`, `h`, `d`, `s`, or has a last token that contains `bytes`,
`sec`, `sent` or `received`. -/
theorem C4_rejected_line_ignored (line : GoString)
    (hnl : Char.ofNat 10 ∉ line)
    (hdel : hasPrefix (trimSpace line) "*deleting".toList = false)
    (h : len (trimSpace line) < 12 ∨ (fields (trimSpace line)).length ≤ 1 ∨
      (∃ code, (fields (trimSpace line)).head? = some code ∧ validChangeType code = false) ∨
      (∃ path, (fields (trimSpace line)).getLast? = some path ∧ statsPath path = true)) :
    parseRsyncOutput line =
      { Changes := [], Deletions := [], Error := none,
        HasChanges := false, HasDeletions := false } := by
  have hign : parseLine ⟨[], [], none, false, false⟩ line = ⟨[], [], none, false, false⟩ := by
    apply parseLine_ignored _ _ hdel
    rcases h with h | h | ⟨code, h1, h2⟩ | ⟨path, h1, h2⟩
    · exact Or.inl h
    · exact Or.inr (Or.inr (Or.inl (by omega)))
    · refine Or.inr (Or.inr (Or.inr (Or.inl ?_)))
      cases hf : fields (trimSpace line) with
      | nil => rw [hf] at h1; simp at h1
      | cons a as =>
        rw [hf] at h1
        simp only [List.head?_cons, Option.some.injEq] at h1
        rw [List.headD_cons, h1]
        exact h2
    · refine Or.inr (Or.inr (Or.inr (Or.inr ?_)))
      rw [List.getLastD_eq_getLast?, h1]
      exact h2
  rw [parseRsyncOutput_line line hnl, hign]
  rfl

/-- Witnesses of C4: `>f+++ a.txt` (11 bytes), the lone file name
`data/new.txt`, `.f...p..... data/x.txt` (unrecognised leading symbol) and
`>f+++++++++ security/keys.txt` (the path contains `sec`) all yield nothing. -/
theorem C4_rejected_line_ignored_witness :
    parseRsyncOutput ">f+++ a.txt".toList = ⟨[], [], none, false, false⟩ ∧
    parseRsyncOutput "data/new.txt".toList = ⟨[], [], none, false, false⟩ ∧
    parseRsyncOutput ".f...p..... data/x.txt".toList = ⟨[], [], none, false, false⟩ ∧
    parseRsyncOutput ">f+++++++++ security/keys.txt".toList = ⟨[], [], none, false, false⟩ :=
  ⟨C4_rejected_line_ignored ">f+++ a.txt".toList (by decide) (by decide)
      (Or.inl (by decide)),
   C4_rejected_line_ignored "data/new.txt".toList (by decide) (by decide)
      (Or.inr (Or.inl (by decide))),
   C4_rejected_line_ignored ".f...p..... data/x.txt".toList (by decide) (by decide)
      (Or.inr (Or.inr (Or.inl ⟨".f...p.....".toList, by decide, by decide⟩))),
   C4_rejected_line_ignored ">f+++++++++ security/keys.txt".toList (by decide) (by decide)
      (Or.inr (Or.inr (Or.inr ⟨"security/keys.txt".toList, by decide, by decide⟩)))⟩

/-- C5: for every output, HasChanges says whether the change list is non-empty
and HasDeletions whether the deletion list is non-empty; the empty output gives
two empty lists and both flags false. -/
theorem C5_flags_match_lists (output : GoString) :
    (parseRsyncOutput output).HasChanges = decide ((parseRsyncOutput output).Changes.length > 0) ∧
    (parseRsyncOutput output).HasDeletions =
      decide ((parseRsyncOutput output).Deletions.length > 0) ∧
    parseRsyncOutput [] =
      { Changes := [], Deletions := [], Error := none,
        HasChanges := false, HasDeletions := false } :=
  ⟨rfl, rfl, by decide⟩

/-- C6: GetSyncOptions returns exactly the profile's own option list when that
list is non-empty, and exactly the global list otherwise. -/
theorem C6_options_override (p : SyncProfile) (baseOptions : List GoString) :
    (p.Options ≠ [] ∧ p.GetSyncOptions baseOptions = p.Options) ∨
    (p.Options = [] ∧ p.GetSyncOptions baseOptions = baseOptions) := by
  unfold SyncProfile.GetSyncOptions
  cases h : p.Options with
  | nil => right; simp
  | cons a as => left; simp

/-- C7: GetExcludes returns the global default excludes followed by the
profile's excludes, both in their order and without deduplication, so its
length is the sum of the two lengths. -/
theorem C7_excludes_concatenated (p : SyncProfile) (defaultExcludes : List GoString) :
    p.GetExcludes defaultExcludes = defaultExcludes ++ p.Excludes ∧
    (p.GetExcludes defaultExcludes).length = defaultExcludes.length + p.Excludes.length := by
  simp [SyncProfile.GetExcludes]

/-- C8: the preview argument vector is, in order: the effective options;
`--dry-run`; `--no-perms`, `--no-owner`, `--no-group`; `--partial`,
`--partial-dir=.rsync-partial`; `--timeout=300`; `--delete`; `-e` and the
remote-shell string `ssh -p <port>`, with ` -i <keyPath>` appended exactly when
the key path is non-empty; one `--exclude` pair per effective exclude; one
`--include` pair per profile include; the source `<user>@<host>:<serverPath>/`
and the destination `<localPath>/`. -/
theorem C8_preview_vector (cfg : Config) (profile : SyncProfile) :
    (buildRsyncCommand cfg profile true).Args =
      "rsync".toList ::
        (profile.GetSyncOptions cfg.Sync.Options ++
          ["--dry-run".toList,
           "--no-perms".toList, "--no-owner".toList, "--no-group".toList,
           "--partial".toList, "--partial-dir=.rsync-partial".toList,
           "--timeout=300".toList,
           "--delete".toList,
           "-e".toList,
           "ssh -p ".toList ++ fmtInt cfg.Server.Port ++
             (if cfg.Server.KeyPath = [] then [] else " -i ".toList ++ cfg.Server.KeyPath)] ++
          flagPairs "--exclude".toList (profile.GetExcludes cfg.Sync.DefaultExcludes) ++
          flagPairs "--include".toList profile.Includes ++
          [cfg.Server.User ++ "@".toList ++ cfg.Server.Host ++ ":".toList ++
             profile.ServerPath ++ "/".toList,
           profile.LocalPath ++ "/".toList]) := by
  have hssh : sshArgs cfg = "ssh -p ".toList ++ fmtInt cfg.Server.Port ++
      (if cfg.Server.KeyPath = [] then [] else " -i ".toList ++ cfg.Server.KeyPath) := by
    unfold sshArgs
    by_cases h : cfg.Server.KeyPath = [] <;> simp [h]
  unfold buildRsyncCommand execCommand
  simp only [foldl_flag_pairs, hssh, if_true, List.nil_append, List.append_assoc,
    List.cons_append]

/-- C9: the apply argument vector is, in order: the effective options;
`--files-from` and the list path; `--no-perms`, `--no-owner`, `--no-group`;
`--partial`, `--partial-dir=.rsync-partial`; `--timeout=300`; `-e` and the
remote-shell string; the source and the destination. It is the preview vector
with `--dry-run`, `--delete` and the exclude and include pairs removed and the
`--files-from` pair inserted right after the effective options. -/
theorem C9_apply_vector (cfg : Config) (profile : SyncProfile) (fileListPath : GoString) :
    (buildRsyncCommandWithFileList cfg profile fileListPath).Args =
      "rsync".toList ::
        (profile.GetSyncOptions cfg.Sync.Options ++
          ["--files-from".toList, fileListPath,
           "--no-perms".toList, "--no-owner".toList, "--no-group".toList,
           "--partial".toList, "--partial-dir=.rsync-partial".toList,
           "--timeout=300".toList,
           "-e".toList,
           "ssh -p ".toList ++ fmtInt cfg.Server.Port ++
             (if cfg.Server.KeyPath = [] then [] else " -i ".toList ++ cfg.Server.KeyPath),
           cfg.Server.User ++ "@".toList ++ cfg.Server.Host ++ ":".toList ++
             profile.ServerPath ++ "/".toList,
           profile.LocalPath ++ "/".toList]) ∧
    ∃ middle shell ends : List GoString,
      (buildRsyncCommand cfg profile true).Args =
        "rsync".toList :: (profile.GetSyncOptions cfg.Sync.Options ++ ["--dry-run".toList] ++
          middle ++ ["--delete".toList] ++ shell ++
          flagPairs "--exclude".toList (profile.GetExcludes cfg.Sync.DefaultExcludes) ++
          flagPairs "--include".toList profile.Includes ++ ends) ∧
      (buildRsyncCommandWithFileList cfg profile fileListPath).Args =
        "rsync".toList :: (profile.GetSyncOptions cfg.Sync.Options ++
          ["--files-from".toList, fileListPath] ++ middle ++ shell ++ ends) := by
  have hssh : sshArgs cfg = "ssh -p ".toList ++ fmtInt cfg.Server.Port ++
      (if cfg.Server.KeyPath = [] then [] else " -i ".toList ++ cfg.Server.KeyPath) := by
    unfold sshArgs
    by_cases h : cfg.Server.KeyPath = [] <;> simp [h]
  refine ⟨?_,
    ["--no-perms".toList, "--no-owner".toList, "--no-group".toList,
     "--partial".toList, "--partial-dir=.rsync-partial".toList, "--timeout=300".toList],
    ["-e".toList, sshArgs cfg],
    [cfg.Server.User ++ "@".toList ++ cfg.Server.Host ++ ":".toList ++
       profile.ServerPath ++ "/".toList, profile.LocalPath ++ "/".toList], ?_, ?_⟩
  · unfold buildRsyncCommandWithFileList execCommand
    simp only [hssh, List.nil_append, List.append_assoc, List.cons_append]
  · unfold buildRsyncCommand execCommand
    simp only [foldl_flag_pairs, if_true, List.nil_append, List.append_assoc,
      List.cons_append]
  · unfold buildRsyncCommandWithFileList execCommand
    simp only [List.nil_append, List.append_assoc, List.cons_append]

/-- C10, counterexample: with the configured options `-r --delete` the apply
argument vector contains `--delete`. -/
theorem C10_apply_flags_counterexample :
    "--delete".toList ∈
      (buildRsyncCommandWithFileList
        { Server := { Host := "host".toList, User := "user".toList, Port := 22, KeyPath := [] },
          Sync := { Options := ["-r".toList, "--delete".toList], DefaultExcludes := [] } }
        { Name := "p".toList, Description := [], ServerPath := "/srv".toList,
          LocalPath := "/mnt".toList, Options := [], Includes := [], Excludes := [] }
        "/tmp/sync-files-1.txt".toList).Args := by
  decide

/-- C10, amended: the apply builder itself adds none of `--delete`, `--dry-run`,
`--exclude`, `--include`: such an element occurs in the apply argument vector
exactly when it is one of the effective options or is the file-list path. -/
theorem C10_apply_flags_only_from_options (cfg : Config) (profile : SyncProfile)
    (fileListPath flag : GoString)
    (hflag : flag ∈ ["--delete".toList, "--dry-run".toList, "--exclude".toList,
      "--include".toList]) :
    flag ∈ (buildRsyncCommandWithFileList cfg profile fileListPath).Args ↔
      flag ∈ profile.GetSyncOptions cfg.Sync.Options ∨ flag = fileListPath := by
  obtain ⟨rest, hssh⟩ := sshArgs_head cfg
  have hsrc := getLast?_append_slash
    (cfg.Server.User ++ "@".toList ++ cfg.Server.Host ++ ":".toList ++ profile.ServerPath)
  have htgt := getLast?_append_slash profile.LocalPath
  have hne1 : flag ≠ sshArgs cfg := by
    intro e
    rw [hssh] at e
    simp only [List.mem_cons, List.mem_singleton, List.not_mem_nil, or_false] at hflag
    rcases hflag with h | h | h | h <;> rw [h] at e <;> cases e
  have hlast : flag.getLast? ≠ some (Char.ofNat 47) := by
    simp only [List.mem_cons, List.mem_singleton, List.not_mem_nil, or_false] at hflag
    rcases hflag with h | h | h | h <;> rw [h] <;> decide
  have hne2 : flag ≠ cfg.Server.User ++ "@".toList ++ cfg.Server.Host ++ ":".toList ++
      profile.ServerPath ++ "/".toList := by
    intro e
    rw [e] at hlast
    exact hlast hsrc
  have hne3 : flag ≠ profile.LocalPath ++ "/".toList := by
    intro e
    rw [e] at hlast
    exact hlast htgt
  have hfix : flag ∉ ["rsync".toList, "--files-from".toList, "--no-perms".toList,
      "--no-owner".toList, "--no-group".toList, "--partial".toList,
      "--partial-dir=.rsync-partial".toList, "--timeout=300".toList, "-e".toList] := by
    simp only [List.mem_cons, List.mem_singleton, List.not_mem_nil, or_false] at hflag
    rcases hflag with h | h | h | h <;> rw [h] <;> decide
  simp only [List.mem_cons, List.mem_singleton, List.not_mem_nil, or_false, not_or] at hfix
  unfold buildRsyncCommandWithFileList execCommand
  simp only [List.nil_append, List.mem_cons, List.mem_append, List.mem_singleton,
    List.not_mem_nil, or_false, hne1, hne2, hne3, hfix]
  tauto

/-- Witness of C10 (amended): with options `-r -z` and the list file
`/tmp/sync-files-1.txt` the apply argument vector holds no `--delete`. -/
theorem C10_apply_flags_only_from_options_witness :
    "--delete".toList ∉
      (buildRsyncCommandWithFileList
        { Server := { Host := "host".toList, User := "user".toList, Port := 22, KeyPath := [] },
          Sync := { Options := ["-r".toList, "-z".toList], DefaultExcludes := [] } }
        { Name := "p".toList, Description := [], ServerPath := "/srv".toList,
          LocalPath := "/mnt".toList, Options := [], Includes := [], Excludes := [] }
        "/tmp/sync-files-1.txt".toList).Args := by
  intro h
  have h2 := (C10_apply_flags_only_from_options _ _ _ "--delete".toList (by decide)).mp h
  revert h2
  decide

/-- The loop body of parseRsyncOutput leaves the result as it is, or appends
one deletion (a non-empty trimmed text), or appends one change of kind New or
Modified. -/
theorem parseLine_shape (r : SyncResult) (line : GoString) :
    parseLine r line = r ∨
    (∃ x, trimSpace x ≠ [] ∧
      parseLine r line = { r with Deletions := r.Deletions ++ [trimSpace x] }) ∨
    (∃ c : FileChange, (c.Type_ = ChangeTypeNew ∨ c.Type_ = ChangeTypeModified) ∧
      parseLine r line = { r with Changes := r.Changes ++ [c] }) := by
  unfold parseLine
  simp only []
  split_ifs with h1 h2 h3 h4 h5 h6 h7 h8 h9
  all_goals first
    | exact Or.inl rfl
    | exact Or.inr (Or.inl ⟨_, h3, rfl⟩)
    | exact Or.inr (Or.inr ⟨_, Or.inl rfl, rfl⟩)
    | exact Or.inr (Or.inr ⟨_, Or.inr rfl, rfl⟩)

theorem split_ne_nil (sep : Char) (s : GoString) : split sep s ≠ [] := by
  induction s with
  | nil => simp [split]
  | cons c cs ih =>
    unfold split
    split_ifs
    · simp
    · split <;> simp

/-- Split distributes over a separator: the pieces of `a`, then those of `b`. -/
theorem split_append_sep (sep : Char) (a b : GoString) :
    split sep (a ++ sep :: b) = split sep a ++ split sep b := by
  induction a with
  | nil => simp [split]
  | cons c cs ih =>
    by_cases hc : c = sep
    · simp [split, hc, ih]
    · have hne := split_ne_nil sep cs
      cases hs : split sep cs with
      | nil => exact absurd hs hne
      | cons h t =>
        have e : (c :: cs) ++ sep :: b = c :: (cs ++ sep :: b) := rfl
        rw [e]
        simp only [split, hc, if_false]
        rw [ih, hs]
        rfl

theorem mem_of_mem_split (sep : Char) (s piece : GoString) (c : Char)
    (hp : piece ∈ split sep s) (hc : c ∈ piece) : c ∈ s := by
  induction s generalizing piece with
  | nil =>
    simp only [split, List.mem_singleton] at hp
    rw [hp] at hc
    exact hc
  | cons d ds ih =>
    unfold split at hp
    split_ifs at hp with hd
    · rcases List.mem_cons.mp hp with h | h
      · rw [h] at hc
        simp at hc
      · exact List.mem_cons_of_mem _ (ih piece h hc)
    · cases hs : split sep ds with
      | nil =>
        rw [hs] at hp
        simp only [List.mem_singleton] at hp
        rw [hp] at hc
        simp only [List.mem_singleton] at hc
        rw [hc]
        exact List.mem_cons_self _ _
      | cons h t =>
        rw [hs] at hp
        rcases List.mem_cons.mp hp with e | e
        · rw [e] at hc
          rcases List.mem_cons.mp hc with e2 | e2
          · rw [e2]
            exact List.mem_cons_self _ _
          · exact List.mem_cons_of_mem _ (ih h (by rw [hs]; exact List.mem_cons_self _ _) e2)
        · exact List.mem_cons_of_mem _
            (ih piece (by rw [hs]; exact List.mem_cons_of_mem _ e) hc)

theorem trimSpace_of_all_space (s : GoString) (h : ∀ c ∈ s, isSpace c = true) :
    trimSpace s = [] := by
  have h1 : s.dropWhile isSpace = [] := List.dropWhile_eq_nil_iff.mpr h
  simp [trimSpace, h1]

/-- The loop body of parseRsyncOutput only appends: what it adds to a result
is what it adds to the empty result. -/
theorem parseLine_append (r : SyncResult) (line : GoString) :
    parseLine r line =
      { r with
        Changes := r.Changes ++ (parseLine ⟨[], [], none, false, false⟩ line).Changes
        Deletions := r.Deletions ++ (parseLine ⟨[], [], none, false, false⟩ line).Deletions } := by
  unfold parseLine
  simp only []
  split_ifs <;> simp

theorem foldl_parseLine_append (r : SyncResult) (lines : List GoString) :
    lines.foldl parseLine r =
      { r with
        Changes := r.Changes ++ (lines.foldl parseLine ⟨[], [], none, false, false⟩).Changes
        Deletions :=
          r.Deletions ++ (lines.foldl parseLine ⟨[], [], none, false, false⟩).Deletions } := by
  induction lines generalizing r with
  | nil => simp
  | cons l ls ih =>
    rw [List.foldl_cons, ih (parseLine r l), List.foldl_cons,
      ih (parseLine ⟨[], [], none, false, false⟩ l), parseLine_append r l]
    simp

theorem foldl_parseLine_blank (r : SyncResult) (lines : List GoString)
    (h : ∀ l ∈ lines, ∀ c ∈ l, isSpace c = true) : lines.foldl parseLine r = r := by
  induction lines generalizing r with
  | nil => rfl
  | cons l ls ih =>
    have hl : parseLine r l = r := by
      unfold parseLine
      simp [trimSpace_of_all_space l (h l (List.mem_cons_self _ _))]
    rw [List.foldl_cons, hl]
    exact ih r (fun m hm => h m (List.mem_cons_of_mem _ hm))

/-- The lines of a text `a`, a newline, and a text `b` are the lines of `a`
followed by the lines of `b`. -/
theorem split_newline_append (a b : GoString) :
    split (Char.ofNat 10) (a ++ "\n".toList ++ b) =
      split (Char.ofNat 10) a ++ split (Char.ofNat 10) b := by
  have e : a ++ "\n".toList ++ b = a ++ Char.ofNat 10 :: b := by
    rw [List.append_assoc]
    rfl
  rw [e, split_append_sep]

/-- C17: parseRsyncOutput works line by line and keeps the order: the changes
of `a`, a newline, `b` are the changes of `a` followed by the changes of `b`,
likewise the deletions; and inserting a line of white space only between `a`
and `b` does not alter the result. -/
theorem C17_parse_compositional (a b ws : GoString) (hws : ∀ c ∈ ws, isSpace c = true) :
    (parseRsyncOutput (a ++ "\n".toList ++ b)).Changes =
      (parseRsyncOutput a).Changes ++ (parseRsyncOutput b).Changes ∧
    (parseRsyncOutput (a ++ "\n".toList ++ b)).Deletions =
      (parseRsyncOutput a).Deletions ++ (parseRsyncOutput b).Deletions ∧
    parseRsyncOutput (a ++ "\n".toList ++ ws ++ "\n".toList ++ b) =
      parseRsyncOutput (a ++ "\n".toList ++ b) := by
  have hblank : ∀ l ∈ split (Char.ofNat 10) ws, ∀ c ∈ l, isSpace c = true :=
    fun l hl c hc => hws c (mem_of_mem_split _ ws l c hl hc)
  refine ⟨?_, ?_, ?_⟩
  · show (List.foldl parseLine _ (split (Char.ofNat 10) (a ++ "\n".toList ++ b))).Changes = _
    rw [split_newline_append, List.foldl_append, foldl_parseLine_append]
    rfl
  · show (List.foldl parseLine _ (split (Char.ofNat 10) (a ++ "\n".toList ++ b))).Deletions = _
    rw [split_newline_append, List.foldl_append, foldl_parseLine_append]
    rfl
  · unfold parseRsyncOutput
    simp only [split_newline_append, List.foldl_append, foldl_parseLine_blank _ _ hblank]

/-- Witness of C17: two lines parse to the change of the first followed by the
deletion of the second, also with a blank line between them. -/
theorem C17_parse_compositional_witness :
    parseRsyncOutput (">f+++++++++ data/new.txt".toList ++ "\n".toList ++ " \t\r".toList ++
        "\n".toList ++ "*deleting build/output.bin".toList) =
      { Changes := [{ Type_ := ChangeTypeNew, Path := "data/new.txt".toList,
                      Size := [], Checksum := [] }],
        Deletions := ["build/output.bin".toList], Error := none,
        HasChanges := true, HasDeletions := true } :=
  (C17_parse_compositional ">f+++++++++ data/new.txt".toList
    "*deleting build/output.bin".toList " \t\r".toList (by decide)).2.2.trans (by decide)

theorem head?_dropWhile_isSpace (l : GoString) (c : Char)
    (h : (l.dropWhile isSpace).head? = some c) : isSpace c = false := by
  induction l with
  | nil => simp at h
  | cons d ds ih =>
    by_cases hd : isSpace d = true
    · rw [List.dropWhile_cons_of_pos hd] at h
      exact ih h
    · rw [List.dropWhile_cons_of_neg hd] at h
      simp only [List.head?_cons, Option.some.injEq] at h
      rw [← h]
      simpa using hd

theorem getLast?_dropWhile (p : Char → Bool) (l : GoString) (h : l.dropWhile p ≠ []) :
    (l.dropWhile p).getLast? = l.getLast? := by
  induction l with
  | nil => rfl
  | cons d ds ih =>
    by_cases hd : p d = true
    · rw [List.dropWhile_cons_of_pos hd] at h ⊢
      rw [ih h]
      cases ds with
      | nil => simp at h
      | cons e es => simp [List.getLast?_cons_cons]
    · rw [List.dropWhile_cons_of_neg hd]

/-- A non-empty result of TrimSpace starts and ends with a non-space rune. -/
theorem trimSpace_ends (s : GoString) :
    (∀ c, (trimSpace s).head? = some c → isSpace c = false) ∧
    (∀ c, (trimSpace s).getLast? = some c → isSpace c = false) := by
  unfold trimSpace
  constructor
  · intro c hc
    rw [List.head?_reverse] at hc
    have hne : List.dropWhile isSpace (List.dropWhile isSpace s).reverse ≠ [] := by
      intro e
      rw [e] at hc
      simp at hc
    rw [getLast?_dropWhile _ _ hne, List.getLast?_reverse] at hc
    exact head?_dropWhile_isSpace s c hc
  · intro c hc
    rw [List.getLast?_reverse] at hc
    exact head?_dropWhile_isSpace _ c hc

/-- Every deletion the loop of parseRsyncOutput records is a non-empty result
of TrimSpace. -/
theorem foldl_parseLine_deletions (r : SyncResult) (lines : List GoString) (p : GoString)
    (hp : p ∈ (lines.foldl parseLine r).Deletions) :
    p ∈ r.Deletions ∨ ∃ x, trimSpace x ≠ [] ∧ p = trimSpace x := by
  induction lines generalizing r with
  | nil => exact Or.inl hp
  | cons l ls ih =>
    rw [List.foldl_cons] at hp
    rcases ih (parseLine r l) hp with h | h
    · rcases parseLine_shape r l with e | ⟨x, hx, e⟩ | ⟨c, _, e⟩
      · rw [e] at h
        exact Or.inl h
      · rw [e] at h
        simp only [List.mem_append, List.mem_singleton] at h
        rcases h with h | h
        · exact Or.inl h
        · exact Or.inr ⟨x, hx, h⟩
      · rw [e] at h
        exact Or.inl h
    · exact Or.inr h

/-- C18: every path in the deletion list of parseRsyncOutput is non-empty and
neither starts nor ends with white space; a line whose trimmed form is the
marker `*deleting` alone adds no deletion. -/
theorem C18_deletion_paths_trimmed (output line : GoString)
    (hnl : Char.ofNat 10 ∉ line) (hmark : trimSpace line = "*deleting".toList) :
    (∀ p ∈ (parseRsyncOutput output).Deletions,
      p ≠ [] ∧ (∀ c, p.head? = some c → isSpace c = false) ∧
      (∀ c, p.getLast? = some c → isSpace c = false)) ∧
    parseRsyncOutput line =
      { Changes := [], Deletions := [], Error := none,
        HasChanges := false, HasDeletions := false } := by
  constructor
  · intro p hp
    have hp2 : p ∈ (List.foldl parseLine ⟨[], [], none, false, false⟩
        (split (Char.ofNat 10) output)).Deletions := hp
    rcases foldl_parseLine_deletions _ _ p hp2 with h | ⟨x, hx, e⟩
    · simp at h
    · rw [e]
      exact ⟨hx, (trimSpace_ends x).1, (trimSpace_ends x).2⟩
  · rw [parseRsyncOutput_line line hnl]
    have h : parseLine ⟨[], [], none, false, false⟩ line = ⟨[], [], none, false, false⟩ := by
      unfold parseLine
      rw [hmark]
      decide
    rw [h]
    rfl

/-- Witness of C18: the marker followed by blanks only records nothing. -/
theorem C18_deletion_paths_trimmed_witness :
    parseRsyncOutput "*deleting   ".toList =
      { Changes := [], Deletions := [], Error := none,
        HasChanges := false, HasDeletions := false } :=
  (C18_deletion_paths_trimmed [] "*deleting   ".toList (by decide) (by decide)).2

/-- C16: ValidateProfile returns an error exactly when the local path does not
exist, or the server host is empty, or the server user is empty; its only call
is one `os.Stat` of the local path, so it starts no subprocess and leaves the
state as it is. -/
theorem C16_validate_profile {σ : Type} (os : OS σ) (cfg : Config) (profile : SyncProfile)
    (w : World σ) :
    ((ValidateProfile os cfg profile w).2 ≠ none ↔
      (os.statNotExist w.state profile.LocalPath = true ∨ cfg.Server.Host = [] ∨
        cfg.Server.User = [])) ∧
    (ValidateProfile os cfg profile w).1.trace = w.trace ++ [Event.stat profile.LocalPath] ∧
    (ValidateProfile os cfg profile w).1.state = w.state := by
  unfold ValidateProfile
  simp only [World.step]
  refine ⟨?_, ?_, ?_⟩
  · split_ifs <;> simp_all
  · split_ifs <;> rfl
  · split_ifs <;> rfl

theorem writeFileList_trace {σ : Type} (os : OS σ) (name : GoString)
    (changes : List FileChange) (w : World σ) :
    (writeFileList os name changes w).trace =
      w.trace ++ (changes.filter (fun c =>
          decide (c.Type_ = ChangeTypeNew ∨ c.Type_ = ChangeTypeModified))).map
        (fun c => Event.write name (c.Path ++ "\n".toList)) := by
  unfold writeFileList
  induction changes generalizing w with
  | nil => simp
  | cons c cs ih =>
    rw [List.foldl_cons, ih]
    by_cases hc : c.Type_ = ChangeTypeNew ∨ c.Type_ = ChangeTypeModified
    · simp only [hc, if_true, World.step, List.filter_cons, decide_True, List.map_cons,
        List.append_assoc, List.singleton_append]
      rfl
    · simp only [hc, if_false, List.filter_cons, decide_False]
      simp

/-- The calls of syncFiles up to the closing of the list file. -/
theorem listFileClosed_trace {σ : Type} (os : OS σ) (name : GoString)
    (changes : List FileChange) (w : World σ) :
    (listFileClosed os name changes w).trace =
      w.trace ++ [Event.createTemp] ++ (changes.filter (fun c =>
          decide (c.Type_ = ChangeTypeNew ∨ c.Type_ = ChangeTypeModified))).map
        (fun c => Event.write name (c.Path ++ "\n".toList)) ++ [Event.close name] := by
  unfold listFileClosed
  simp only [World.step, writeFileList_trace]

/-- The calls of the part of syncFiles that runs the command: one start, a
wait when the start succeeded, and the removal of the list file. -/
theorem runCopy_trace {σ : Type} (os : OS σ) (cfg : Config) (profile : SyncProfile)
    (name : GoString) (w : World σ) :
    (runCopy os cfg profile name w).1.trace =
      w.trace ++ [Event.start (buildRsyncCommandWithFileList cfg profile name)] ++
        (if (os.start w.state (buildRsyncCommandWithFileList cfg profile name)).2 = none
         then [Event.wait (buildRsyncCommandWithFileList cfg profile name)] else []) ++
        [Event.remove name] := by
  unfold runCopy
  simp only [World.step]
  split
  · rename_i err h
    simp [h]
  · rename_i h
    split <;> simp [h]
/-- The generic exit-code message differs from the two special ones, whatever
the code. -/
theorem generic_ne_special (code : Int) :
    "rsync 실행 실패 (exit code ".toList ++ fmtInt code ++ ")".toList ≠
        "rsync 부분 실패 (일부 파일 전송 실패)".toList ∧
    "rsync 실행 실패 (exit code ".toList ++ fmtInt code ++ ")".toList ≠
        "rsync 일시적 실패 (재시도 필요)".toList := by
  have hhead : List.take 7 ("rsync 실행 실패 (exit code ".toList ++ fmtInt code ++ ")".toList) =
      "rsync 실".toList := by
    rw [List.append_assoc]
    rfl
  constructor
  · intro h
    have h7 := congrArg (List.take 7) h
    rw [hhead] at h7
    revert h7
    decide
  · intro h
    have h7 := congrArg (List.take 7) h
    rw [hhead] at h7
    revert h7
    decide

/-- C12: when the apply subprocess ends with an exit error, syncFiles reports
the error for its exit code: 23 the partial failure, 24 the temporary failure,
any other code the generic failure carrying the code; the three messages differ
pairwise; and the subprocess is started once, with no retry. -/
theorem C12_exit_code_errors {σ : Type} (os : OS σ) (cfg : Config) (profile : SyncProfile)
    (changes : List FileChange) (w : World σ) (name : GoString) (code : Int)
    (hcreate : (os.createTemp w.state).2 = Except.ok name)
    (hstart : (os.start (listFileClosed os name changes w).state
      (buildRsyncCommandWithFileList cfg profile name)).2 = none)
    (hwait : (os.wait (os.start (listFileClosed os name changes w).state
        (buildRsyncCommandWithFileList cfg profile name)).1
      (buildRsyncCommandWithFileList cfg profile name)).2 = WaitResult.exitError code) :
    (syncFiles os cfg profile changes w).2 = some (exitCodeError code) ∧
    exitCodeError 23 = "rsync 부분 실패 (일부 파일 전송 실패)".toList ∧
    exitCodeError 24 = "rsync 일시적 실패 (재시도 필요)".toList ∧
    (code ≠ 23 → code ≠ 24 →
      exitCodeError code = "rsync 실행 실패 (exit code ".toList ++ fmtInt code ++ ")".toList ∧
      exitCodeError code ≠ exitCodeError 23 ∧ exitCodeError code ≠ exitCodeError 24) ∧
    exitCodeError 23 ≠ exitCodeError 24 ∧
    (syncFiles os cfg profile changes w).1.trace =
      (listFileClosed os name changes w).trace ++
        [Event.start (buildRsyncCommandWithFileList cfg profile name),
         Event.wait (buildRsyncCommandWithFileList cfg profile name),
         Event.remove name] ∧
    ((syncFiles os cfg profile changes w).1.trace.filter Event.isStart).length =
      (w.trace.filter Event.isStart).length + 1 := by
  have h23 : exitCodeError 23 = "rsync 부분 실패 (일부 파일 전송 실패)".toList := by
    simp only [exitCodeError, if_true]
  have h24 : exitCodeError 24 = "rsync 일시적 실패 (재시도 필요)".toList := by
    simp only [exitCodeError]
    rfl
  have hsync : syncFiles os cfg profile changes w =
      runCopy os cfg profile name (listFileClosed os name changes w) := by
    unfold syncFiles
    rw [hcreate]
  have htrace : (syncFiles os cfg profile changes w).1.trace =
      (listFileClosed os name changes w).trace ++
        [Event.start (buildRsyncCommandWithFileList cfg profile name),
         Event.wait (buildRsyncCommandWithFileList cfg profile name),
         Event.remove name] := by
    rw [hsync, runCopy_trace, hstart]
    simp
  refine ⟨?_, h23, h24, ?_, ?_, htrace, ?_⟩
  · rw [hsync]
    unfold runCopy
    simp only [World.step, hstart, hwait]
  · intro h1 h2
    have hg : exitCodeError code =
        "rsync 실행 실패 (exit code ".toList ++ fmtInt code ++ ")".toList := by
      simp only [exitCodeError, h1, h2, if_false]
    refine ⟨hg, ?_, ?_⟩
    · rw [hg, h23]
      exact (generic_ne_special code).1
    · rw [hg, h24]
      exact (generic_ne_special code).2
  · rw [h23, h24]
    decide
  · rw [htrace, listFileClosed_trace]
    simp [List.filter_append, List.filter_map, Event.isStart, Function.comp_def]
/-- Witnesses of C12: exit code 23 gives the partial failure, 24 the temporary
failure, 1 the generic failure with the code. -/
theorem C12_exit_code_errors_witness :
    (syncFiles (exampleOS (WaitResult.exitError 23) [] []) exampleConfig exampleProfile
      [⟨ChangeTypeNew, "a.txt".toList, [], []⟩] ⟨[], []⟩).2 =
        some "rsync 부분 실패 (일부 파일 전송 실패)".toList ∧
    (syncFiles (exampleOS (WaitResult.exitError 24) [] []) exampleConfig exampleProfile
      [⟨ChangeTypeNew, "a.txt".toList, [], []⟩] ⟨[], []⟩).2 =
        some "rsync 일시적 실패 (재시도 필요)".toList ∧
    (syncFiles (exampleOS (WaitResult.exitError 1) [] []) exampleConfig exampleProfile
      [⟨ChangeTypeNew, "a.txt".toList, [], []⟩] ⟨[], []⟩).2 =
        some "rsync 실행 실패 (exit code 1)".toList :=
  ⟨(C12_exit_code_errors (exampleOS (WaitResult.exitError 23) [] []) exampleConfig
      exampleProfile [⟨ChangeTypeNew, "a.txt".toList, [], []⟩] ⟨[], []⟩
      "/tmp/sync-files-1.txt".toList 23 rfl rfl rfl).1.trans (by decide),
   (C12_exit_code_errors (exampleOS (WaitResult.exitError 24) [] []) exampleConfig
      exampleProfile [⟨ChangeTypeNew, "a.txt".toList, [], []⟩] ⟨[], []⟩
      "/tmp/sync-files-1.txt".toList 24 rfl rfl rfl).1.trans (by decide),
   (C12_exit_code_errors (exampleOS (WaitResult.exitError 1) [] []) exampleConfig
      exampleProfile [⟨ChangeTypeNew, "a.txt".toList, [], []⟩] ⟨[], []⟩
      "/tmp/sync-files-1.txt".toList 1 rfl rfl rfl).1.trans (by decide)⟩

/-- Every change the loop of parseRsyncOutput records is of kind New or
Modified. -/
theorem foldl_parseLine_changes (r : SyncResult) (lines : List GoString) (c : FileChange)
    (hc : c ∈ (lines.foldl parseLine r).Changes) :
    c ∈ r.Changes ∨ c.Type_ = ChangeTypeNew ∨ c.Type_ = ChangeTypeModified := by
  induction lines generalizing r with
  | nil => exact Or.inl hc
  | cons l ls ih =>
    rw [List.foldl_cons] at hc
    rcases ih (parseLine r l) hc with h | h
    · rcases parseLine_shape r l with e | ⟨x, _, e⟩ | ⟨d, hd, e⟩
      · rw [e] at h
        exact Or.inl h
      · rw [e] at h
        exact Or.inl h
      · rw [e] at h
        simp only [List.mem_append, List.mem_singleton] at h
        rcases h with h | h
        · exact Or.inl h
        · rw [h]
          exact Or.inr hd
    · exact Or.inr h

/-- C15: syncFiles writes to the list file the paths of the changes of kind
New or Modified, in their order, each followed by a newline, closes the file
and starts the apply command built for that file; nothing is written later.
For the changes of a parsed output these are all change paths. -/
theorem C15_list_file_contents {σ : Type} (os : OS σ) (cfg : Config) (profile : SyncProfile)
    (changes : List FileChange) (w : World σ) (name output : GoString)
    (hcreate : (os.createTemp w.state).2 = Except.ok name) :
    (∃ rest, (syncFiles os cfg profile changes w).1.trace =
      w.trace ++ [Event.createTemp] ++
        (changes.filter (fun c =>
          decide (c.Type_ = ChangeTypeNew ∨ c.Type_ = ChangeTypeModified))).map
          (fun c => Event.write name (c.Path ++ "\n".toList)) ++
        [Event.close name, Event.start (buildRsyncCommandWithFileList cfg profile name)] ++
        rest ∧ ∀ e ∈ rest, Event.isWrite e = false) ∧
    ["--files-from".toList, name] <:+: (buildRsyncCommandWithFileList cfg profile name).Args ∧
    (parseRsyncOutput output).Changes.filter (fun c =>
        decide (c.Type_ = ChangeTypeNew ∨ c.Type_ = ChangeTypeModified)) =
      (parseRsyncOutput output).Changes := by
  have hsync : syncFiles os cfg profile changes w =
      runCopy os cfg profile name (listFileClosed os name changes w) := by
    unfold syncFiles
    rw [hcreate]
  refine ⟨?_, ?_, ?_⟩
  · refine ⟨(if (os.start (listFileClosed os name changes w).state
        (buildRsyncCommandWithFileList cfg profile name)).2 = none
        then [Event.wait (buildRsyncCommandWithFileList cfg profile name)] else []) ++
        [Event.remove name], ?_, ?_⟩
    · rw [hsync, runCopy_trace, listFileClosed_trace]
      simp
    · intro e he
      split_ifs at he <;> simp at he <;> rcases he with rfl | rfl <;> rfl
  · refine ⟨"rsync".toList :: profile.GetSyncOptions cfg.Sync.Options, ?_⟩
    unfold buildRsyncCommandWithFileList execCommand
    simp
  · rw [List.filter_eq_self]
    intro c hc
    have hc2 : c ∈ (List.foldl parseLine ⟨[], [], none, false, false⟩
        (split (Char.ofNat 10) output)).Changes := hc
    rcases foldl_parseLine_changes _ _ c hc2 with h | h
    · simp at h
    · simpa using h
/-- Witness of C15: of three changes, the two of kind New and Modified are
written, one per line and in order, and the apply command reads that file. -/
theorem C15_list_file_contents_witness :
    ["--files-from".toList, "/tmp/sync-files-1.txt".toList] <:+:
      (buildRsyncCommandWithFileList exampleConfig exampleProfile
        "/tmp/sync-files-1.txt".toList).Args ∧
    (syncFiles (exampleOS WaitResult.success [] []) exampleConfig exampleProfile
      [⟨ChangeTypeNew, "a.txt".toList, [], []⟩, ⟨ChangeTypeDeleted, "b.txt".toList, [], []⟩,
       ⟨ChangeTypeModified, "c.txt".toList, [], []⟩] ⟨[], []⟩).1.trace =
      [Event.createTemp,
       Event.write "/tmp/sync-files-1.txt".toList "a.txt\n".toList,
       Event.write "/tmp/sync-files-1.txt".toList "c.txt\n".toList,
       Event.close "/tmp/sync-files-1.txt".toList,
       Event.start (buildRsyncCommandWithFileList exampleConfig exampleProfile
         "/tmp/sync-files-1.txt".toList),
       Event.wait (buildRsyncCommandWithFileList exampleConfig exampleProfile
         "/tmp/sync-files-1.txt".toList),
       Event.remove "/tmp/sync-files-1.txt".toList] :=
  ⟨(C15_list_file_contents (exampleOS WaitResult.success [] []) exampleConfig exampleProfile
      [⟨ChangeTypeNew, "a.txt".toList, [], []⟩, ⟨ChangeTypeDeleted, "b.txt".toList, [], []⟩,
       ⟨ChangeTypeModified, "c.txt".toList, [], []⟩] ⟨[], []⟩
      "/tmp/sync-files-1.txt".toList [] rfl).2.1, by decide⟩

theorem deleteFiles_append {σ : Type} (os : OS σ) (profile : SyncProfile)
    (pre post : List GoString) (w : World σ) :
    (deleteFiles os profile (pre ++ post) w).1 =
      (deleteFiles os profile post (deleteFiles os profile pre w).1).1 := by
  simp [deleteFiles, List.foldl_append]

/-- The calls of the loop body of deleteFiles: `os.Stat`, and `os.RemoveAll`
unless the path does not exist. -/
theorem deleteOne_trace {σ : Type} (os : OS σ) (profile : SyncProfile) (p : GoString)
    (w : World σ) :
    (deleteOne os profile w p).trace =
      w.trace ++ (if os.statNotExist w.state (filepathJoin profile.LocalPath p) = true
        then [Event.stat (filepathJoin profile.LocalPath p)]
        else [Event.stat (filepathJoin profile.LocalPath p),
              Event.removeAll (filepathJoin profile.LocalPath p)]) := by
  unfold deleteOne
  simp only [World.step]
  split_ifs
  · rfl
  · split <;> simp

theorem deleteOne_state {σ : Type} (os : OS σ) (profile : SyncProfile) (p : GoString)
    (w : World σ) :
    (deleteOne os profile w p).state =
      if os.statNotExist w.state (filepathJoin profile.LocalPath p) = true then w.state
      else (os.removeAll w.state (filepathJoin profile.LocalPath p)).1 := by
  unfold deleteOne
  simp only [World.step]
  split_ifs
  · rfl
  · split <;> rfl

/-- The calls of deleteFiles are `os.Stat` and `os.RemoveAll` calls, added
after the calls made before. -/
theorem deleteFiles_trace {σ : Type} (os : OS σ) (profile : SyncProfile)
    (deletions : List GoString) (w : World σ) :
    ∃ evs, (deleteFiles os profile deletions w).1.trace = w.trace ++ evs ∧
      (∀ e ∈ evs, Event.isDelete e = true) ∧ (deletions = [] → evs = []) := by
  induction deletions generalizing w with
  | nil => exact ⟨[], by simp [deleteFiles], by simp, fun _ => rfl⟩
  | cons p ps ih =>
    obtain ⟨evs, h1, h2, _⟩ := ih (deleteOne os profile w p)
    have hone : ∃ evs1, (deleteOne os profile w p).trace = w.trace ++ evs1 ∧
        ∀ e ∈ evs1, Event.isDelete e = true := by
      refine ⟨_, deleteOne_trace os profile p w, ?_⟩
      intro e he
      split_ifs at he <;> simp at he <;> rcases he with rfl | rfl <;> rfl
    obtain ⟨evs1, h3, h4⟩ := hone
    refine ⟨evs1 ++ evs, ?_, ?_, ?_⟩
    · have e : (deleteFiles os profile (p :: ps) w).1 =
          (deleteFiles os profile ps (deleteOne os profile w p)).1 := by
        simp [deleteFiles]
      rw [e, h1, h3, List.append_assoc]
    · intro e he
      rcases List.mem_append.mp he with h | h
      · exact h4 e h
      · exact h2 e h
    · intro h
      cases h

/-- C13: deleteFiles returns no error; at a listed path that does not exist the
state is left as it is, at one that exists `os.RemoveAll` is called and its
result taken, whether it fails or not; and in both cases the loop goes on with
the paths listed after it. -/
theorem C13_delete_best_effort {σ : Type} (os : OS σ) (profile : SyncProfile)
    (pre post : List GoString) (p : GoString) (w : World σ) :
    (deleteFiles os profile (pre ++ p :: post) w).2 = none ∧
    (os.statNotExist (deleteFiles os profile pre w).1.state
        (filepathJoin profile.LocalPath p) = true →
      (deleteOne os profile (deleteFiles os profile pre w).1 p).state =
        (deleteFiles os profile pre w).1.state ∧
      (deleteOne os profile (deleteFiles os profile pre w).1 p).trace =
        (deleteFiles os profile pre w).1.trace ++
          [Event.stat (filepathJoin profile.LocalPath p)]) ∧
    (os.statNotExist (deleteFiles os profile pre w).1.state
        (filepathJoin profile.LocalPath p) = false →
      (deleteOne os profile (deleteFiles os profile pre w).1 p).state =
        (os.removeAll (deleteFiles os profile pre w).1.state
          (filepathJoin profile.LocalPath p)).1 ∧
      (deleteOne os profile (deleteFiles os profile pre w).1 p).trace =
        (deleteFiles os profile pre w).1.trace ++
          [Event.stat (filepathJoin profile.LocalPath p),
           Event.removeAll (filepathJoin profile.LocalPath p)]) ∧
    (deleteFiles os profile (pre ++ p :: post) w).1 =
      (deleteFiles os profile post
        (deleteOne os profile (deleteFiles os profile pre w).1 p)).1 := by
  refine ⟨rfl, ?_, ?_, ?_⟩
  · intro h
    rw [deleteOne_state, deleteOne_trace]
    simp [h]
  · intro h
    rw [deleteOne_state, deleteOne_trace]
    simp [h]
  · rw [deleteFiles_append]
    simp [deleteFiles]
/-- Witness of C13: with `x` and `z` present and `missing` absent below the
root, deleteFiles removes `x`, skips `missing`, removes `z`, and returns no
error. -/
theorem C13_delete_best_effort_witness :
    (deleteFiles (exampleOS WaitResult.success [] []) exampleProfile
      (["x".toList] ++ "missing".toList :: ["z".toList])
      ⟨["/mnt/usb".toList, "/mnt/usb/x".toList, "/mnt/usb/z".toList], []⟩).2 = none ∧
    (deleteFiles (exampleOS WaitResult.success [] []) exampleProfile
      (["x".toList] ++ "missing".toList :: ["z".toList])
      ⟨["/mnt/usb".toList, "/mnt/usb/x".toList, "/mnt/usb/z".toList], []⟩).1 =
      ⟨["/mnt/usb".toList],
       [Event.stat "/mnt/usb/x".toList, Event.removeAll "/mnt/usb/x".toList,
        Event.stat "/mnt/usb/missing".toList,
        Event.stat "/mnt/usb/z".toList, Event.removeAll "/mnt/usb/z".toList]⟩ :=
  ⟨(C13_delete_best_effort (exampleOS WaitResult.success [] []) exampleProfile
      ["x".toList] ["z".toList] "missing".toList
      ⟨["/mnt/usb".toList, "/mnt/usb/x".toList, "/mnt/usb/z".toList], []⟩).1, by decide⟩

/-- The calls of syncFiles come after the calls made before, and none of them
is an `os.Stat` or `os.RemoveAll`. -/
theorem syncFiles_trace {σ : Type} (os : OS σ) (cfg : Config) (profile : SyncProfile)
    (changes : List FileChange) (w : World σ) :
    ∃ evs, (syncFiles os cfg profile changes w).1.trace = w.trace ++ evs ∧
      ∀ e ∈ evs, Event.isDelete e = false := by
  unfold syncFiles
  split
  · exact ⟨[Event.createTemp], rfl, by simp [Event.isDelete]⟩
  · rename_i name _
    refine ⟨[Event.createTemp] ++ ((changes.filter (fun c =>
          decide (c.Type_ = ChangeTypeNew ∨ c.Type_ = ChangeTypeModified))).map
          (fun c => Event.write name (c.Path ++ "\n".toList)) ++
        ([Event.close name] ++
          ([Event.start (buildRsyncCommandWithFileList cfg profile name)] ++
            ((if (os.start (listFileClosed os name changes w).state
                (buildRsyncCommandWithFileList cfg profile name)).2 = none
              then [Event.wait (buildRsyncCommandWithFileList cfg profile name)] else []) ++
            [Event.remove name])))), ?_, ?_⟩
    · rw [runCopy_trace, listFileClosed_trace]
      simp only [List.append_assoc]
    · intro e he
      simp only [List.mem_append, List.mem_map, List.mem_singleton, List.mem_filter] at he
      rcases he with rfl | ⟨c, _, rfl⟩ | rfl | rfl | he | rfl
      · rfl
      · rfl
      · rfl
      · rfl
      · split_ifs at he
        · simp only [List.mem_singleton] at he
          rw [he]
          rfl
        · simp at he
      · rfl

/-- C19: SyncEngine.Sync runs the copy phase (only on a non-empty change list),
then the delete phase (only on a non-empty deletion list) from the world the
copy phase left. When the copy phase fails, Sync returns its error wrapped and
the world of the copy phase, in which nothing was deleted; otherwise it returns
no error, so never one from the delete phase. -/
theorem C19_copy_then_delete {σ : Type} (os : OS σ) (cfg : Config) (profile : SyncProfile)
    (changes : SyncResult) (w : World σ) :
    ((∃ err, (copyPhase os cfg profile changes w).2 = some err ∧
        SyncEngine.Sync os cfg profile changes w =
          ((copyPhase os cfg profile changes w).1, some ("파일 동기화 실패: ".toList ++ err))) ∨
      ((copyPhase os cfg profile changes w).2 = none ∧
        SyncEngine.Sync os cfg profile changes w =
          ((deletePhase os profile changes (copyPhase os cfg profile changes w).1).1, none))) ∧
    (∃ copyEvents, (copyPhase os cfg profile changes w).1.trace = w.trace ++ copyEvents ∧
      (∀ e ∈ copyEvents, Event.isDelete e = false) ∧
      (changes.Changes = [] → copyEvents = [])) ∧
    (∃ deleteEvents,
      (deletePhase os profile changes (copyPhase os cfg profile changes w).1).1.trace =
        (copyPhase os cfg profile changes w).1.trace ++ deleteEvents ∧
      (∀ e ∈ deleteEvents, Event.isDelete e = true) ∧
      (changes.Deletions = [] → deleteEvents = [])) := by
  refine ⟨?_, ?_, ?_⟩
  · unfold SyncEngine.Sync copyPhase deletePhase
    by_cases hc : changes.Changes = []
    · right
      by_cases hd : changes.Deletions = []
      · simp [hc, hd]
      · have hd2 : changes.Deletions.length > 0 := List.length_pos.mpr hd
        simp [hc, hd, hd2, deleteFiles]
    · have hc2 : changes.Changes.length > 0 := List.length_pos.mpr hc
      simp only [hc, hc2, if_true, if_false]
      cases hs : (syncFiles os cfg profile changes.Changes w).2 with
      | some err =>
        left
        exact ⟨err, rfl, rfl⟩
      | none =>
        right
        by_cases hd : changes.Deletions = []
        · simp [hd]
        · have hd2 : changes.Deletions.length > 0 := List.length_pos.mpr hd
          simp [hd, hd2, deleteFiles]
  · unfold copyPhase
    by_cases hc : changes.Changes = []
    · exact ⟨[], by simp [hc], by simp, fun _ => rfl⟩
    · obtain ⟨evs, h1, h2⟩ := syncFiles_trace os cfg profile changes.Changes w
      exact ⟨evs, by simp [hc, h1], h2, fun h => absurd h hc⟩
  · unfold deletePhase
    by_cases hd : changes.Deletions = []
    · exact ⟨[], by simp [hd], by simp, fun _ => rfl⟩
    · obtain ⟨evs, h1, h2, _⟩ := deleteFiles_trace os profile changes.Deletions
        (copyPhase os cfg profile changes w).1
      exact ⟨evs, by simp [hd, h1], h2, fun h => absurd h hd⟩
/-- An example of a failed copy phase: when the apply command exits with code
23, Sync returns
the wrapped partial-failure error and calls neither `os.Stat` nor
`os.RemoveAll`, although a deletion is listed. -/
theorem Sync_copy_failure_example :
    (SyncEngine.Sync (exampleOS (WaitResult.exitError 23) [] []) exampleConfig exampleProfile
      ⟨[⟨ChangeTypeNew, "a.txt".toList, [], []⟩], ["old.txt".toList], none, true, true⟩
      ⟨["/mnt/usb".toList, "/mnt/usb/old.txt".toList], []⟩).2 =
      some "파일 동기화 실패: rsync 부분 실패 (일부 파일 전송 실패)".toList ∧
    ((SyncEngine.Sync (exampleOS (WaitResult.exitError 23) [] []) exampleConfig exampleProfile
      ⟨[⟨ChangeTypeNew, "a.txt".toList, [], []⟩], ["old.txt".toList], none, true, true⟩
      ⟨["/mnt/usb".toList, "/mnt/usb/old.txt".toList], []⟩).1.trace.filter
        Event.isDelete) = [] ∧
    (SyncEngine.Sync (exampleOS (WaitResult.exitError 23) [] []) exampleConfig exampleProfile
      ⟨[⟨ChangeTypeNew, "a.txt".toList, [], []⟩], ["old.txt".toList], none, true, true⟩
      ⟨["/mnt/usb".toList, "/mnt/usb/old.txt".toList], []⟩).1.state =
      ["/mnt/usb".toList, "/mnt/usb/old.txt".toList] := by
  decide

/-- C11, counterexample: the preview reports one deletion, dryRun and
autoConfirm are false, ConfirmActions is true, and the answer on standard input
is `y` ended by the end of input, with no newline. `ReadString` returns the data
`y` with the error `EOF`; the answer trimmed and lower-cased is `y`, yet
app.Sync returns no error without calling the engine's Sync: the listed file
is still there and the only calls are the validation, the preview and the read,
while the engine's Sync on that change set would remove the file. -/
theorem C11_cut_off_answer_counterexample :
    asciiLower (trimSpace
      ((exampleOSCutOff WaitResult.success "*deleting old.txt\n".toList "y".toList).readString
        ["/mnt/usb".toList, "/mnt/usb/old.txt".toList]).2.1) = "y".toList ∧
    (parseRsyncOutput "*deleting old.txt\n".toList).HasDeletions = true ∧
    app.Sync (exampleOSCutOff WaitResult.success "*deleting old.txt\n".toList "y".toList)
      asciiLower exampleConfig ⟨[], true, true⟩ exampleProfile false false
      ⟨["/mnt/usb".toList, "/mnt/usb/old.txt".toList], []⟩ =
      (⟨["/mnt/usb".toList, "/mnt/usb/old.txt".toList],
        [Event.stat "/mnt/usb".toList,
         Event.combinedOutput (buildRsyncCommand exampleConfig exampleProfile true),
         Event.readString]⟩, none) ∧
    (SyncEngine.Sync (exampleOSCutOff WaitResult.success "*deleting old.txt\n".toList "y".toList)
      exampleConfig exampleProfile (parseRsyncOutput "*deleting old.txt\n".toList)
      ⟨["/mnt/usb".toList, "/mnt/usb/old.txt".toList], []⟩).1.state = ["/mnt/usb".toList] := by
  decide

/-- C11, amended: after a successful validation and preview, app.Sync calls the
engine's Sync exactly when the change set has changes or deletions, dryRun is
false, and autoConfirm is true, or ConfirmActions is false, or a line was read
from standard input without error that, trimmed and lower-cased, is `y` or
`yes`. In every other case it returns no error and the world of the preview,
with at most the read of standard input added: no command is started and
nothing is deleted. -/
theorem C11_apply_decision {σ : Type} (os : OS σ) (toLower : GoString → GoString)
    (cfg : Config) (ui : UIConfig) (profile : SyncProfile) (dryRun autoConfirm : Bool)
    (w w1 : World σ) (changes : SyncResult)
    (hvalid : (ValidateProfile os cfg profile w).2 = none)
    (hpreview : DryRun os cfg profile (ValidateProfile os cfg profile w).1 =
      (w1, Except.ok changes)) :
    (((changes.HasChanges = true ∨ changes.HasDeletions = true) ∧ dryRun = false ∧
        (autoConfirm = true ∨ ui.ConfirmActions = false ∨
          ((os.readString w1.state).2.2 = none ∧
            (toLower (trimSpace (os.readString w1.state).2.1) = "y".toList ∨
             toLower (trimSpace (os.readString w1.state).2.1) = "yes".toList)))) →
      ∃ w2, (w2 = w1 ∨ w2 = w1.step (os.readString w1.state).1 Event.readString) ∧
        app.Sync os toLower cfg ui profile dryRun autoConfirm w =
          ((SyncEngine.Sync os cfg profile changes w2).1,
           (SyncEngine.Sync os cfg profile changes w2).2.map
             (fun err => "동기화 실행 실패: ".toList ++ err))) ∧
    (¬ ((changes.HasChanges = true ∨ changes.HasDeletions = true) ∧ dryRun = false ∧
        (autoConfirm = true ∨ ui.ConfirmActions = false ∨
          ((os.readString w1.state).2.2 = none ∧
            (toLower (trimSpace (os.readString w1.state).2.1) = "y".toList ∨
             toLower (trimSpace (os.readString w1.state).2.1) = "yes".toList)))) →
      (app.Sync os toLower cfg ui profile dryRun autoConfirm w).2 = none ∧
      ((app.Sync os toLower cfg ui profile dryRun autoConfirm w).1 = w1 ∨
       (app.Sync os toLower cfg ui profile dryRun autoConfirm w).1 =
         w1.step (os.readString w1.state).1 Event.readString)) := by
  have happ : app.Sync os toLower cfg ui profile dryRun autoConfirm w =
      if (!changes.HasChanges && !changes.HasDeletions) = true then (w1, none)
      else if dryRun = true then (w1, none)
      else if (!(if (!autoConfirm && ui.ConfirmActions) = true then confirmSync os toLower w1
          else (w1, true)).2) = true
        then ((if (!autoConfirm && ui.ConfirmActions) = true then confirmSync os toLower w1
          else (w1, true)).1, none)
      else ((SyncEngine.Sync os cfg profile changes
              (if (!autoConfirm && ui.ConfirmActions) = true then confirmSync os toLower w1
                else (w1, true)).1).1,
            (SyncEngine.Sync os cfg profile changes
              (if (!autoConfirm && ui.ConfirmActions) = true then confirmSync os toLower w1
                else (w1, true)).1).2.map (fun err => "동기화 실행 실패: ".toList ++ err)) := by
    unfold app.Sync
    simp only [hvalid, hpreview]
    split_ifs
    · rfl
    · rfl
    · rfl
    · split <;> rename_i h <;> simp [h]
    · rfl
    · split <;> rename_i h <;> simp [h]
  have hconfirm1 : (confirmSync os toLower w1).1 =
      w1.step (os.readString w1.state).1 Event.readString := by
    cases h : (os.readString w1.state).2.2 <;> simp [confirmSync, h]
  have hconfirm2 : (confirmSync os toLower w1).2 = true ↔
      ((os.readString w1.state).2.2 = none ∧
        (toLower (trimSpace (os.readString w1.state).2.1) = "y".toList ∨
         toLower (trimSpace (os.readString w1.state).2.1) = "yes".toList)) := by
    cases h : (os.readString w1.state).2.2 <;> simp [confirmSync, h]
  rw [happ]
  constructor
  · rintro ⟨hch, hdry, hok⟩
    have h1 : (!changes.HasChanges && !changes.HasDeletions) = false := by
      rcases hch with h | h <;> simp [h]
    simp only [h1, hdry, Bool.false_eq_true, if_false]
    by_cases hask : (!autoConfirm && ui.ConfirmActions) = true
    · have hyes : (confirmSync os toLower w1).2 = true := by
        rcases hok with h | h | h
        · simp [h] at hask
        · simp [h] at hask
        · exact hconfirm2.mpr h
      simp only [hask, if_true, hyes, Bool.not_true, Bool.false_eq_true, if_false]
      exact ⟨_, Or.inr hconfirm1, rfl⟩
    · simp only [hask, if_false, Bool.not_true, Bool.false_eq_true]
      exact ⟨w1, Or.inl rfl, rfl⟩
  · intro hnot
    by_cases h1 : (!changes.HasChanges && !changes.HasDeletions) = true
    · rw [if_pos h1]
      exact ⟨rfl, Or.inl rfl⟩
    · have hch : changes.HasChanges = true ∨ changes.HasDeletions = true := by
        cases hA : changes.HasChanges <;> cases hB : changes.HasDeletions <;> simp_all
      by_cases hdry : dryRun = true
      · simp only [h1, if_false, hdry, if_true]
        exact ⟨rfl, Or.inl rfl⟩
      · have hdry2 : dryRun = false := by simpa using hdry
        have hno : ¬ (autoConfirm = true ∨ ui.ConfirmActions = false ∨
            ((os.readString w1.state).2.2 = none ∧
              (toLower (trimSpace (os.readString w1.state).2.1) = "y".toList ∨
               toLower (trimSpace (os.readString w1.state).2.1) = "yes".toList))) :=
          fun h => hnot ⟨hch, hdry2, h⟩
        simp only [not_or] at hno
        obtain ⟨ha, hc, hr⟩ := hno
        have hask : (!autoConfirm && ui.ConfirmActions) = true := by
          cases hA : autoConfirm <;> cases hB : ui.ConfirmActions <;> simp_all
        have hcancel : (confirmSync os toLower w1).2 = false := by
          cases hx : (confirmSync os toLower w1).2
          · rfl
          · exact absurd (hconfirm2.mp hx) hr
        simp only [h1, if_false, hdry, hask, if_true, hcancel, Bool.not_false]
        exact ⟨rfl, Or.inr hconfirm1⟩
/-- Witness of C11: the preview reports one deletion. In a dry run app.Sync
returns no error, starts no apply command and deletes nothing; without dry run
and with the answer `Yes` the listed file is removed; with the answer `n`
nothing is removed. -/
theorem C11_apply_decision_witness :
    (app.Sync (exampleOS WaitResult.success "*deleting old.txt\n".toList "Yes\n".toList)
      asciiLower exampleConfig ⟨[], true, true⟩ exampleProfile true false
      ⟨["/mnt/usb".toList, "/mnt/usb/old.txt".toList], []⟩).2 = none ∧
    (app.Sync (exampleOS WaitResult.success "*deleting old.txt\n".toList "Yes\n".toList)
      asciiLower exampleConfig ⟨[], true, true⟩ exampleProfile true false
      ⟨["/mnt/usb".toList, "/mnt/usb/old.txt".toList], []⟩).1 =
      ⟨["/mnt/usb".toList, "/mnt/usb/old.txt".toList],
       [Event.stat "/mnt/usb".toList,
        Event.combinedOutput (buildRsyncCommand exampleConfig exampleProfile true)]⟩ ∧
    (app.Sync (exampleOS WaitResult.success "*deleting old.txt\n".toList "Yes\n".toList)
      asciiLower exampleConfig ⟨[], true, true⟩ exampleProfile false false
      ⟨["/mnt/usb".toList, "/mnt/usb/old.txt".toList], []⟩) =
      (⟨["/mnt/usb".toList],
        [Event.stat "/mnt/usb".toList,
         Event.combinedOutput (buildRsyncCommand exampleConfig exampleProfile true),
         Event.readString,
         Event.stat "/mnt/usb/old.txt".toList, Event.removeAll "/mnt/usb/old.txt".toList]⟩,
       none) ∧
    (app.Sync (exampleOS WaitResult.success "*deleting old.txt\n".toList "n\n".toList)
      asciiLower exampleConfig ⟨[], true, true⟩ exampleProfile false false
      ⟨["/mnt/usb".toList, "/mnt/usb/old.txt".toList], []⟩) =
      (⟨["/mnt/usb".toList, "/mnt/usb/old.txt".toList],
        [Event.stat "/mnt/usb".toList,
         Event.combinedOutput (buildRsyncCommand exampleConfig exampleProfile true),
         Event.readString]⟩, none) :=
  ⟨((C11_apply_decision
      (exampleOS WaitResult.success "*deleting old.txt\n".toList "Yes\n".toList)
      asciiLower exampleConfig ⟨[], true, true⟩ exampleProfile true false
      ⟨["/mnt/usb".toList, "/mnt/usb/old.txt".toList], []⟩
      ⟨["/mnt/usb".toList, "/mnt/usb/old.txt".toList],
       [Event.stat "/mnt/usb".toList,
        Event.combinedOutput (buildRsyncCommand exampleConfig exampleProfile true)]⟩
      (parseRsyncOutput "*deleting old.txt\n".toList) rfl rfl).2
      (fun h => absurd h.2.1 (by decide))).1,
   by decide, by decide, by decide⟩

theorem not_mem_of_mem_split (sep : Char) (s piece : GoString)
    (hp : piece ∈ split sep s) : sep ∉ piece := by
  induction s generalizing piece with
  | nil =>
    simp only [split, List.mem_singleton] at hp
    rw [hp]
    simp
  | cons d ds ih =>
    unfold split at hp
    split_ifs at hp with hd
    · rcases List.mem_cons.mp hp with h | h
      · rw [h]
        simp
      · exact ih piece h
    · cases hs : split sep ds with
      | nil => exact absurd hs (split_ne_nil sep ds)
      | cons h t =>
        rw [hs] at hp
        rcases List.mem_cons.mp hp with e | e
        · rw [e]
          intro hmem
          rcases List.mem_cons.mp hmem with e2 | e2
          · exact hd e2.symm
          · exact ih h (by rw [hs]; exact List.mem_cons_self _ _) e2
        · exact ih piece (by rw [hs]; exact List.mem_cons_of_mem _ e)

theorem cleanStep_kept (rooted : Bool) (stack : List GoString) (elem : GoString)
    (hs : ∀ e ∈ stack, KeptElem e) (he : Char.ofNat 47 ∉ elem) :
    ∀ e ∈ cleanStep rooted stack elem, KeptElem e := by
  have hadd : ¬ (elem = [] ∨ elem = ".".toList) → ∀ e ∈ stack ++ [elem], KeptElem e := by
    intro h1 e hmem
    rcases List.mem_append.mp hmem with h | h
    · exact hs e h
    · simp only [List.mem_singleton] at h
      rw [h]
      exact ⟨fun e0 => h1 (Or.inl e0), fun e0 => h1 (Or.inr e0), he⟩
  unfold cleanStep
  by_cases h1 : elem = [] ∨ elem = ".".toList
  · rw [if_pos h1]
    exact hs
  · rw [if_neg h1]
    by_cases h2 : elem = "..".toList
    · rw [if_pos h2]
      cases hl : stack.getLast? with
      | none =>
        cases rooted
        · exact hadd h1
        · exact hs
      | some top =>
        by_cases ht : top ≠ "..".toList
        · show ∀ e ∈ (if top ≠ "..".toList then stack.dropLast else stack ++ [elem]), KeptElem e
          rw [if_pos ht]
          exact fun e hmem => hs e (List.mem_of_mem_dropLast hmem)
        · show ∀ e ∈ (if top ≠ "..".toList then stack.dropLast else stack ++ [elem]), KeptElem e
          rw [if_neg ht]
          exact hadd h1
    · rw [if_neg h2]
      exact hadd h1

theorem foldl_cleanStep_kept (rooted : Bool) (elems stack : List GoString)
    (hs : ∀ e ∈ stack, KeptElem e) (he : ∀ e ∈ elems, Char.ofNat 47 ∉ e) :
    ∀ e ∈ elems.foldl (cleanStep rooted) stack, KeptElem e := by
  induction elems generalizing stack with
  | nil => exact hs
  | cons a as ih =>
    rw [List.foldl_cons]
    exact ih _ (cleanStep_kept rooted stack a hs (he a (List.mem_cons_self _ _)))
      (fun e hmem => he e (List.mem_cons_of_mem _ hmem))

theorem cleanElems_kept (path : GoString) : ∀ e ∈ cleanElems path, KeptElem e :=
  foldl_cleanStep_kept _ _ [] (by simp)
    (fun e hmem => not_mem_of_mem_split _ path e hmem)

/-- Without a `..` element the cleaning loop appends the elements other than
the empty one and `.`. -/
theorem foldl_cleanStep_no_dotdot (rooted : Bool) (elems stack : List GoString)
    (h : "..".toList ∉ elems) :
    elems.foldl (cleanStep rooted) stack =
      stack ++ elems.filter (fun e => decide (e ≠ [] ∧ e ≠ ".".toList)) := by
  induction elems generalizing stack with
  | nil => simp
  | cons a as ih =>
    have ha : a ≠ "..".toList := fun e => h (by rw [e]; exact List.mem_cons_self _ _)
    have has : "..".toList ∉ as := fun e => h (List.mem_cons_of_mem _ e)
    rw [List.foldl_cons, ih _ has]
    by_cases hk : a = [] ∨ a = ".".toList
    · have hstep : cleanStep rooted stack a = stack := by
        unfold cleanStep
        rw [if_pos hk]
      have hf : decide (a ≠ [] ∧ a ≠ ".".toList) = false := by
        rw [decide_eq_false_iff_not]
        tauto
      rw [hstep, List.filter_cons, hf]
      rfl
    · have hstep : cleanStep rooted stack a = stack ++ [a] := by
        unfold cleanStep
        rw [if_neg hk, if_neg ha]
      have hf : decide (a ≠ [] ∧ a ≠ ".".toList) = true := by
        rw [decide_eq_true_iff]
        tauto
      rw [hstep, List.filter_cons, hf]
      simp

theorem split_joinSlash (xs : List GoString) (hx : ∀ e ∈ xs, Char.ofNat 47 ∉ e)
    (hne : xs ≠ []) : split (Char.ofNat 47) (joinSlash xs) = xs := by
  induction xs with
  | nil => exact absurd rfl hne
  | cons a as ih =>
    cases as with
    | nil =>
      simp only [joinSlash]
      exact split_of_not_mem _ a (hx a (List.mem_cons_self _ _))
    | cons b bs =>
      have e : joinSlash (a :: b :: bs) = a ++ Char.ofNat 47 :: joinSlash (b :: bs) := by
        simp only [joinSlash, List.append_assoc]
        rfl
      rw [e, split_append_sep, split_of_not_mem _ a (hx a (List.mem_cons_self _ _)),
        ih (fun e he => hx e (List.mem_cons_of_mem _ he)) (List.cons_ne_nil _ _)]
      rfl

theorem filter_kept (xs : List GoString) (hk : ∀ e ∈ xs, KeptElem e) :
    xs.filter (fun e => decide (e ≠ [] ∧ e ≠ ".".toList)) = xs := by
  rw [List.filter_eq_self]
  intro e he
  have h := hk e he
  simp only [decide_eq_true_eq]
  exact ⟨h.1, h.2.1⟩

/-- The elements of the kept elements joined by slashes are these elements. -/
theorem pathElems_joinSlash (xs : List GoString) (hk : ∀ e ∈ xs, KeptElem e) :
    pathElems (joinSlash xs) = xs := by
  by_cases hne : xs = []
  · rw [hne]
    decide
  · unfold pathElems
    rw [split_joinSlash xs (fun e he => (hk e he).2.2) hne, filter_kept xs hk]

theorem pathElems_slash_joinSlash (xs : List GoString) (hk : ∀ e ∈ xs, KeptElem e) :
    pathElems ("/".toList ++ joinSlash xs) = xs := by
  have e : "/".toList ++ joinSlash xs = [] ++ Char.ofNat 47 :: joinSlash xs := rfl
  have h := pathElems_joinSlash xs hk
  unfold pathElems at h ⊢
  rw [e, split_append_sep, List.filter_append, h]
  rfl

theorem joinSlash_head (a : GoString) (as : List GoString) :
    ∃ rest, joinSlash (a :: as) = a ++ rest := by
  cases as with
  | nil => exact ⟨[], by simp [joinSlash]⟩
  | cons b bs => exact ⟨"/".toList ++ joinSlash (b :: bs), by simp [joinSlash]⟩

theorem hasPrefix_joinSlash (xs : List GoString) (hk : ∀ e ∈ xs, KeptElem e) :
    hasPrefix (joinSlash xs) "/".toList = false := by
  cases xs with
  | nil => decide
  | cons a as =>
    obtain ⟨rest, h⟩ := joinSlash_head a as
    have ha := hk a (List.mem_cons_self _ _)
    cases a with
    | nil => exact absurd rfl ha.1
    | cons c cs =>
      rw [h]
      have hc : c ≠ Char.ofNat 47 := fun e => ha.2.2 (by rw [e]; exact List.mem_cons_self _ _)
      have hc2 : Char.ofNat 47 ≠ c := fun e => hc e.symm
      simp [hasPrefix, List.isPrefixOf, hc2]

/-- Clean keeps rootedness, and the elements of the cleaned path are the
elements the cleaning loop kept. -/
theorem filepathClean_elems (path : GoString) (hne : path ≠ []) :
    pathElems (filepathClean path) = cleanElems path ∧
    hasPrefix (filepathClean path) "/".toList = hasPrefix path "/".toList := by
  have hk := cleanElems_kept path
  unfold filepathClean
  rw [if_neg hne]
  simp only []
  cases hr : hasPrefix path "/".toList
  · simp only [Bool.false_eq_true, if_false, List.nil_append]
    by_cases hj : joinSlash (cleanElems path) = []
    · rw [if_pos hj]
      have hnil : cleanElems path = [] := by
        cases hc : cleanElems path with
        | nil => rfl
        | cons a as =>
          exfalso
          obtain ⟨rest, h⟩ := joinSlash_head a as
          rw [hc, h] at hj
          have ha := (hk a (by rw [hc]; exact List.mem_cons_self _ _)).1
          cases a with
          | nil => exact ha rfl
          | cons c cs => cases hj
      rw [hnil]
      decide
    · rw [if_neg hj]
      exact ⟨pathElems_joinSlash _ hk, hasPrefix_joinSlash _ hk⟩
  · simp only [if_true]
    have hne2 : "/".toList ++ joinSlash (cleanElems path) ≠ [] := by
      intro h
      cases h
    rw [if_neg hne2]
    exact ⟨pathElems_slash_joinSlash _ hk, by simp [hasPrefix, List.isPrefixOf]⟩

/-- Join of a non-empty root and a relative path without a `..` element: the
cleaned elements of the root followed by the elements of the relative path. -/
theorem filepathJoin_elems (root rel : GoString) (hroot : root ≠ [])
    (hdots : "..".toList ∉ split (Char.ofNat 47) rel) :
    pathElems (filepathJoin root rel) = cleanElems root ++ pathElems rel ∧
    hasPrefix (filepathJoin root rel) "/".toList = hasPrefix root "/".toList := by
  have hjoin : filepathJoin root rel = filepathClean (root ++ "/".toList ++ rel) := by
    unfold filepathJoin
    rw [if_pos hroot]
  have hne : root ++ "/".toList ++ rel ≠ [] := by
    cases root with
    | nil => exact absurd rfl hroot
    | cons c cs => simp
  have hrooted : hasPrefix (root ++ "/".toList ++ rel) "/".toList =
      hasPrefix root "/".toList := by
    cases root with
    | nil => exact absurd rfl hroot
    | cons c cs => simp [hasPrefix, List.isPrefixOf]
  have hsplit : split (Char.ofNat 47) (root ++ "/".toList ++ rel) =
      split (Char.ofNat 47) root ++ split (Char.ofNat 47) rel := by
    have e : root ++ "/".toList ++ rel = root ++ Char.ofNat 47 :: rel := by
      rw [List.append_assoc]
      rfl
    rw [e, split_append_sep]
  have helems : cleanElems (root ++ "/".toList ++ rel) = cleanElems root ++ pathElems rel := by
    unfold cleanElems pathElems
    rw [hrooted, hsplit, List.foldl_append, foldl_cleanStep_no_dotdot _ _ _ hdots]
  obtain ⟨h1, h2⟩ := filepathClean_elems _ hne
  rw [hjoin, h1, h2, helems, hrooted]
  exact ⟨rfl, rfl⟩

/-- C14, counterexample: the parser accepts the deletion records `..` and `.`;
for the local root `/mnt/usb` deleteFiles then removes `/mnt`, which lies
outside the root, and `/mnt/usb`, the root itself. -/
theorem C14_delete_outside_root_counterexample :
    (parseRsyncOutput "*deleting ..\n*deleting .".toList).Deletions =
      ["..".toList, ".".toList] ∧
    filepathJoin exampleProfile.LocalPath "..".toList = "/mnt".toList ∧
    filepathJoin exampleProfile.LocalPath ".".toList = "/mnt/usb".toList ∧
    strictlyInside exampleProfile.LocalPath
      (filepathJoin exampleProfile.LocalPath "..".toList) = false ∧
    strictlyInside exampleProfile.LocalPath
      (filepathJoin exampleProfile.LocalPath ".".toList) = false ∧
    (deleteFiles (exampleOS WaitResult.success [] []) exampleProfile ["..".toList]
      ⟨["/mnt".toList, "/mnt/usb".toList, "/mnt/other".toList], []⟩).1 =
      ⟨[], [Event.stat "/mnt".toList, Event.removeAll "/mnt".toList]⟩ := by
  decide

/-- C14, amended: for a non-empty local root and a listed relative path that
has an element other than the empty one and `.`, and no element `..`, the path
deleteFiles checks and removes is `filepath.Join` of the root and the relative
path, and it lies strictly inside the local root. -/
theorem C14_delete_inside_root {σ : Type} (os : OS σ) (profile : SyncProfile)
    (w : World σ) (rel : GoString)
    (hroot : profile.LocalPath ≠ [])
    (helem : pathElems rel ≠ [])
    (hdots : "..".toList ∉ split (Char.ofNat 47) rel) :
    strictlyInside profile.LocalPath (filepathJoin profile.LocalPath rel) = true ∧
    (deleteOne os profile w rel).trace =
      w.trace ++
        (if os.statNotExist w.state (filepathJoin profile.LocalPath rel) = true
         then [Event.stat (filepathJoin profile.LocalPath rel)]
         else [Event.stat (filepathJoin profile.LocalPath rel),
               Event.removeAll (filepathJoin profile.LocalPath rel)]) := by
  refine ⟨?_, deleteOne_trace os profile rel w⟩
  obtain ⟨h1, h2⟩ := filepathJoin_elems profile.LocalPath rel hroot hdots
  obtain ⟨h3, h4⟩ := filepathClean_elems profile.LocalPath hroot
  have hd : "..".toList ∉ pathElems rel := by
    intro h
    exact hdots (List.mem_of_mem_filter h)
  have hlen : 0 < (pathElems rel).length := List.length_pos.mpr helem
  unfold strictlyInside
  simp only [h1, h2, h3, h4]
  simp [hlen]
  exact hd

/-- Witness of C14 (amended): the listed path `build/output.bin` resolves to
`/mnt/usb/build/output.bin`, strictly inside the root `/mnt/usb`. -/
theorem C14_delete_inside_root_witness :
    filepathJoin exampleProfile.LocalPath "build/output.bin".toList =
      "/mnt/usb/build/output.bin".toList ∧
    strictlyInside exampleProfile.LocalPath
      (filepathJoin exampleProfile.LocalPath "build/output.bin".toList) = true :=
  ⟨by decide,
   (C14_delete_inside_root (exampleOS WaitResult.success [] []) exampleProfile ⟨[], []⟩
      "build/output.bin".toList (by decide) (by decide) (by decide)).1⟩

end SyncTool
